import Mathlib

/-!
Shallow embedding in Lean 4 of the core state and algorithms of the
`space_station_3d` repository (Rust), together with theorems settling the
frozen claims about its specification.

Modelling conventions, applied uniformly:

* `f32` scalars are idealized as exact rationals `ℚ`; a decimal literal in the
  Rust source is embedded as the rational it denotes (`0.99 ↦ 99/100`).
* `std::time::Duration` values are embedded as rational numbers of seconds;
  `Duration::saturating_sub` becomes `satSub` (truncated subtraction at zero)
  and `Duration::from_secs_f32` is the identity on the idealized scalars
  (it is only ever applied to nonnegative `dt` in the claims considered here;
  in Rust it panics on negative input).
* The transcendental helpers of the Rust standard library (`f32::sin`,
  `f32::cos`, `f32::sqrt`) have no exact rational counterpart; they are
  embedded as the computable rational models `sinQ`, `cosQ`, `sqrtQ` below
  (`sqrtQ` is exact on perfect squares, which covers every concrete input
  appearing in a theorem of this file).  No theorem in this file depends on
  the numeric value of `sinQ`/`cosQ` or of the Newton branch of `sqrtQ`.
* `rand`-based randomness (`random_direction`) is embedded by passing the
  direction the generator would have produced as an explicit oracle argument.
* `&mut self` methods become functions from the receiver to the updated
  receiver (returning the method result alongside it where there is one).
-/

/-! ## Rational models of the `f32` runtime helpers -/

/- Batteries marks the `Rat` arithmetic operations `@[irreducible]`, which
blocks the elaborator from evaluating concrete rational arithmetic in
`decide`/`rfl` proofs about the embedded code; restore the default
transparency for this development (the kernel is unaffected either way). -/
attribute [local semireducible] Rat.add Rat.mul Rat.sub Rat.inv Rat.ofScientific

set_option maxRecDepth 4000

/-- Truncated (saturating) subtraction on the rational model of
`std::time::Duration`: `Duration::saturating_sub` never goes below zero. -/
def satSub (a b : ℚ) : ℚ := max (a - b) 0

/-- Structural integer square root used by `sqrtQ` (counts up while the next
square still fits; the fuel makes it reduce inside the kernel, which
Lean's well-founded `Nat.sqrt` does not). -/
def natSqrtAux (n : ℕ) : ℕ → ℕ → ℕ
  | 0, acc => acc
  | fuel + 1, acc => if (acc + 1) * (acc + 1) ≤ n then natSqrtAux n fuel (acc + 1) else acc

/-- The largest `k` with `k * k ≤ n`. -/
def natSqrt (n : ℕ) : ℕ := natSqrtAux n n 0

/-- Newton iteration used by `sqrtQ` away from perfect squares. -/
def newtonSqrt : ℕ → ℚ → ℚ → ℚ
  | 0, _, x => x
  | k + 1, q, x => newtonSqrt k q ((x + q / x) / 2)

/-- Computable rational model of `f32::sqrt` on the idealized scalars: exact
when numerator and denominator are perfect squares, otherwise a Newton
approximation.  Nonpositive inputs are sent to `0` (Rust would produce `NaN`
for negative input; no claim exercises that case). -/
def sqrtQ (q : ℚ) : ℚ :=
  if q ≤ 0 then 0
  else
    let n := q.num.toNat
    let d := q.den
    if natSqrt n * natSqrt n = n ∧ natSqrt d * natSqrt d = d then
      (natSqrt n : ℚ) / (natSqrt d : ℚ)
    else
      newtonSqrt 8 q (max q 1)

/-- Computable rational model of `f32::sin` (odd Taylor truncation).  No
theorem below depends on its numeric values. -/
def sinQ (x : ℚ) : ℚ := x - x ^ 3 / 6 + x ^ 5 / 120 - x ^ 7 / 5040

/-- Computable rational model of `f32::cos` (even Taylor truncation).  No
theorem below depends on its numeric values. -/
def cosQ (x : ℚ) : ℚ := 1 - x ^ 2 / 2 + x ^ 4 / 24 - x ^ 6 / 720

/-- Rational model of the constant `std::f32::consts::TAU`. -/
def tauQ : ℚ := 6283185307179586 / 1000000000000000

/-- The exact rational value of `f32::MAX`, `(2 - 2⁻²³)·2¹²⁷`. -/
def f32Max : ℚ := 2 ^ 128 - 2 ^ 104

/-- Rust `f32` remainder `x % y` for the nonnegative operands it is applied
to in this code base (`emitter.age % 10.0`). -/
def fmodQ (x y : ℚ) : ℚ := x - y * ((⌊x / y⌋ : ℤ) : ℚ)

/-! ## glam vector / quaternion / matrix types over the rational model -/

/-- Model of `glam::Vec2`. -/
structure Vec2 where
  x : ℚ
  y : ℚ
deriving DecidableEq, Repr

/-- Model of `glam::Vec3`. -/
structure Vec3 where
  x : ℚ
  y : ℚ
  z : ℚ
deriving DecidableEq, Repr

/-- Model of `glam::Vec4`. -/
structure Vec4 where
  x : ℚ
  y : ℚ
  z : ℚ
  w : ℚ
deriving DecidableEq, Repr

/-- Model of `glam::Quat` (x, y, z, w components). -/
structure Quat where
  x : ℚ
  y : ℚ
  z : ℚ
  w : ℚ
deriving DecidableEq, Repr

def Vec3.zero : Vec3 := ⟨0, 0, 0⟩

def Vec3.one : Vec3 := ⟨1, 1, 1⟩

def Vec3.add (a b : Vec3) : Vec3 := ⟨a.x + b.x, a.y + b.y, a.z + b.z⟩

def Vec3.sub (a b : Vec3) : Vec3 := ⟨a.x - b.x, a.y - b.y, a.z - b.z⟩

/-- Componentwise scaling, i.e. glam's `Vec3 * f32`. -/
def Vec3.smul (a : Vec3) (s : ℚ) : Vec3 := ⟨a.x * s, a.y * s, a.z * s⟩

instance : Add Vec3 := ⟨Vec3.add⟩

instance : Sub Vec3 := ⟨Vec3.sub⟩

instance : HMul Vec3 ℚ Vec3 := ⟨Vec3.smul⟩

def Vec3.length_squared (a : Vec3) : ℚ := a.x * a.x + a.y * a.y + a.z * a.z

def Vec3.length (a : Vec3) : ℚ := sqrtQ a.length_squared

def Vec3.distance (a b : Vec3) : ℚ := (a - b).length

/-- Model of `glam::Vec3::normalize`, `v / v.length()`.  In the rational model
a zero-length vector normalizes to the zero vector (glam would produce a
non-finite vector there); no theorem depends on that case. -/
def Vec3.normalize (a : Vec3) : Vec3 :=
  let len := a.length
  if len = 0 then Vec3.zero else a.smul len⁻¹

def Quat.identity : Quat := ⟨0, 0, 0, 1⟩

/-- Model of `glam::Mat4`: four column vectors, `w_axis` carrying the
translation, exactly as in glam's column-major layout. -/
structure Mat4 where
  x_axis : Vec4
  y_axis : Vec4
  z_axis : Vec4
  w_axis : Vec4
deriving DecidableEq, Repr

def Mat4.identity : Mat4 :=
  ⟨⟨1, 0, 0, 0⟩, ⟨0, 1, 0, 0⟩, ⟨0, 0, 1, 0⟩, ⟨0, 0, 0, 1⟩⟩

/-- Matrix–vector product `M * v` (columns weighted by the components). -/
def Mat4.mulVec4 (m : Mat4) (v : Vec4) : Vec4 :=
  ⟨m.x_axis.x * v.x + m.y_axis.x * v.y + m.z_axis.x * v.z + m.w_axis.x * v.w,
   m.x_axis.y * v.x + m.y_axis.y * v.y + m.z_axis.y * v.z + m.w_axis.y * v.w,
   m.x_axis.z * v.x + m.y_axis.z * v.y + m.z_axis.z * v.z + m.w_axis.z * v.w,
   m.x_axis.w * v.x + m.y_axis.w * v.y + m.z_axis.w * v.z + m.w_axis.w * v.w⟩

/-- Matrix product `a * b`, column major as in glam. -/
def Mat4.mul (a b : Mat4) : Mat4 :=
  ⟨a.mulVec4 b.x_axis, a.mulVec4 b.y_axis, a.mulVec4 b.z_axis, a.mulVec4 b.w_axis⟩

instance : Mul Mat4 := ⟨Mat4.mul⟩

/-- Model of `glam::Mat4::from_scale_rotation_translation` (scale, then
rotate, then translate), following glam's `quat_to_axes`. -/
def Mat4.from_scale_rotation_translation (scale : Vec3) (rotation : Quat)
    (translation : Vec3) : Mat4 :=
  let x := rotation.x
  let y := rotation.y
  let z := rotation.z
  let w := rotation.w
  let x2 := x + x
  let y2 := y + y
  let z2 := z + z
  let xx := x * x2
  let xy := x * y2
  let xz := x * z2
  let yy := y * y2
  let yz := y * z2
  let zz := z * z2
  let wx := w * x2
  let wy := w * y2
  let wz := w * z2
  let xAxis : Vec4 := ⟨1 - (yy + zz), xy + wz, xz - wy, 0⟩
  let yAxis : Vec4 := ⟨xy - wz, 1 - (xx + zz), yz + wx, 0⟩
  let zAxis : Vec4 := ⟨xz + wy, yz - wx, 1 - (xx + yy), 0⟩
  ⟨⟨xAxis.x * scale.x, xAxis.y * scale.x, xAxis.z * scale.x, 0⟩,
   ⟨yAxis.x * scale.y, yAxis.y * scale.y, yAxis.z * scale.y, 0⟩,
   ⟨zAxis.x * scale.z, zAxis.y * scale.z, zAxis.z * scale.z, 0⟩,
   ⟨translation.x, translation.y, translation.z, 1⟩⟩

/-! ## Embedding of `src/particle.rs` -/

/-- Model of `ParticleType` (src/particle.rs). -/
inductive ParticleType where
  | Debris
  | Smoke
  | Fire
  | Spark
  | Glow
  | Flash
  | Shockwave
  | ElectricArc
  | TimeDistortion
  | PlasmaFlow
  | IonicDischarge
  | QuantumFluctuation
deriving DecidableEq, Repr

/-- Model of `ParticleEffectType` (src/particle.rs). -/
inductive ParticleEffectType where
  | Fade
  | ColorShift
  | Scale
  | Glow
  | Flash
  | Trail
  | Shockwave
  | ElectricArc
  | TimeDistortion
deriving DecidableEq, Repr

/-- Model of `ParticleEffect`; the `HashMap<String, f32>` parameter map is
modelled as an association list. -/
structure ParticleEffect where
  effect_type : ParticleEffectType
  duration : ℚ
  elapsed : ℚ
  parameters : List (String × ℚ)
deriving DecidableEq, Repr

/-- Model of `ParticleEffect::update`: `elapsed += dt`; the per-type match in
the Rust source has empty (placeholder) bodies for every arm, so no other
field changes. -/
def ParticleEffect.update (dt : ℚ) (e : ParticleEffect) : ParticleEffect :=
  { e with elapsed := e.elapsed + dt }

/-- Model of `ParticleConfig`. -/
structure ParticleConfig where
  position : Vec3
  direction : Vec3
  spread_angle : ℚ
  speed : ℚ
  size : ℚ
  color : Vec3
  particle_lifetime : ℚ
deriving DecidableEq, Repr

/-- Model of `Particle`. -/
structure Particle where
  position : Vec3
  velocity : Vec3
  acceleration : Vec3
  size : ℚ
  color : Vec3
  opacity : ℚ
  rotation : ℚ
  lifetime : ℚ
  age : ℚ
  particle_type : ParticleType
  effects : List ParticleEffect
deriving DecidableEq, Repr

/-- Model of `impl Default for Particle` (one-second lifetime, unit size and
opacity, Debris type). -/
def Particle.defaultValue : Particle :=
  ⟨Vec3.zero, Vec3.zero, Vec3.zero, 1, Vec3.one, 1, 0, 1, 0, ParticleType.Debris, []⟩

instance : Inhabited Particle := ⟨Particle.defaultValue⟩

/-- Model of `Particle::new`: note that the Rust constructor hardcodes
`particle_type: ParticleType::Debris` and never reads `config.spread_angle`. -/
def Particle.new (config : ParticleConfig) : Particle :=
  { position := config.position
    velocity := config.direction * config.speed
    acceleration := Vec3.zero
    size := config.size
    color := config.color
    opacity := 1
    rotation := 0
    lifetime := config.particle_lifetime
    age := 0
    particle_type := ParticleType.Debris
    effects := [] }

/-- Model of `Particle::update(dt)`: the per-type integration rule followed by
the effect updates and the cull of expired effects.  Every arm of the Rust
match decrements `lifetime` by `saturating_sub(Duration::from_secs_f32(dt))`,
modelled by `satSub`; within an arm, `position` is integrated with the
pre-update `velocity`, and `TimeDistortion` reads the pre-decrement
`lifetime` for its pulsing size, exactly as the sequential Rust statements
do. -/
def Particle.update (dt : ℚ) (p : Particle) : Particle :=
  let p1 :=
    match p.particle_type with
    | ParticleType.Debris =>
        { p with position := p.position + p.velocity * dt
                 velocity := p.velocity * (0.99 : ℚ)
                 lifetime := satSub p.lifetime dt }
    | ParticleType.Smoke =>
        { p with position := p.position + p.velocity * dt
                 velocity := { p.velocity with y := p.velocity.y + 0.1 * dt }
                 size := p.size * 1.01
                 lifetime := satSub p.lifetime dt }
    | ParticleType.Fire =>
        { p with position := p.position + p.velocity * dt
                 velocity := { p.velocity with y := p.velocity.y + 0.2 * dt }
                 size := p.size * 0.99
                 lifetime := satSub p.lifetime dt }
    | ParticleType.Spark =>
        { p with position := p.position + p.velocity * dt
                 velocity := { p.velocity with y := p.velocity.y - 0.5 * dt }
                 size := p.size * 0.98
                 lifetime := satSub p.lifetime dt }
    | ParticleType.Glow =>
        { p with position := p.position + p.velocity * dt
                 size := p.size * 0.95
                 lifetime := satSub p.lifetime dt }
    | ParticleType.Flash =>
        { p with position := p.position + p.velocity * dt
                 size := p.size * 0.95
                 lifetime := satSub p.lifetime dt }
    | ParticleType.Shockwave =>
        { p with position := p.position + p.velocity * dt
                 size := p.size * 1.1
                 lifetime := satSub p.lifetime dt }
    | ParticleType.ElectricArc =>
        { p with position := p.position + p.velocity * dt
                 rotation := p.rotation + dt * 10
                 lifetime := satSub p.lifetime dt }
    | ParticleType.TimeDistortion =>
        { p with position := p.position + p.velocity * dt * (0.5 : ℚ)
                 size := 1 + sinQ (p.lifetime * 2)
                 lifetime := satSub p.lifetime dt }
    | _ =>
        { p with position := p.position + p.velocity * dt
                 lifetime := satSub p.lifetime dt }
  { p1 with effects := (p1.effects.map (ParticleEffect.update dt)).filter (fun e => e.elapsed < e.duration) }

/-- Model of `EmissionPattern`.  The `count` of `Ring` is a `u32`. -/
inductive EmissionPattern where
  | Point
  | Sphere (radius : ℚ)
  | Cone (radius : ℚ) (height : ℚ)
  | Ring (radius : ℚ) (count : ℕ)
  | Spiral (radius : ℚ) (height : ℚ) (rotations : ℚ)
  | Burst (radius : ℚ) (angle_offset : ℚ)
deriving DecidableEq, Repr

/-- Model of `ParticleEmitter`.  The particle pool is the ordered `Vec` of the
Rust struct. -/
structure ParticleEmitter where
  position : Vec3
  direction : Vec3
  spread_angle : ℚ
  emission_rate : ℚ
  particle_type : ParticleType
  particles : List Particle
  emission_pattern : EmissionPattern
  age : ℚ
  max_particles : ℕ
  initial_velocity : ℚ
  particle_size : ℚ
  particle_lifetime : ℚ
  emit_timer : ℚ
  emission_interval : ℚ
deriving DecidableEq, Repr

/-- Model of `ParticleEmitterBuilder` (all fields `Default`-initialized by
`ParticleEmitterBuilder::new`). -/
structure ParticleEmitterBuilder where
  position : Vec3 := Vec3.zero
  direction : Vec3 := Vec3.zero
  spread_angle : ℚ := 0
  emission_rate : ℚ := 0
  particle_type : ParticleType := ParticleType.Debris
  emission_pattern : EmissionPattern := EmissionPattern.Point
  initial_velocity : ℚ := 0
  particle_size : ℚ := 0
  particle_lifetime : ℚ := 0
deriving DecidableEq, Repr

/-- Model of `ParticleEmitterBuilder::new` (`Self::default()`). -/
def ParticleEmitterBuilder.new : ParticleEmitterBuilder := {}

/-- Model of `ParticleEmitterBuilder::build`: copies the configured fields and
fills in the fixed defaults (`max_particles: 100`, one-second emission
interval, empty pool, zero age and timer). -/
def ParticleEmitterBuilder.build (b : ParticleEmitterBuilder) : ParticleEmitter :=
  { position := b.position
    direction := b.direction
    spread_angle := b.spread_angle
    emission_rate := b.emission_rate
    particle_type := b.particle_type
    emission_pattern := b.emission_pattern
    initial_velocity := b.initial_velocity
    particle_size := b.particle_size
    particle_lifetime := b.particle_lifetime
    particles := []
    age := 0
    max_particles := 100
    emit_timer := 0
    emission_interval := 1 }

/-- Spawn-position sampling of `ParticleEmitter::emit`, one case per
`EmissionPattern`.  `rnd` is the oracle value that the Rust call
`random_direction()` would have produced (used only by `Sphere`).  For
`Ring`, a `count` of zero would make the Rust `%` panic; the model follows
Lean's `% 0 = id` convention there (no claim exercises `count = 0`). -/
def ParticleEmitter.spawnPosition (e : ParticleEmitter) (rnd : Vec3) : Vec3 :=
  match e.emission_pattern with
  | EmissionPattern.Point => e.position
  | EmissionPattern.Sphere radius => e.position + rnd * radius
  | EmissionPattern.Cone radius height =>
      let t := e.age
      let angle := t * tauQ
      let r := radius * (1 - cosQ t * 0.2)
      e.position + ⟨cosQ angle * r, height * t, sinQ angle * r⟩
  | EmissionPattern.Ring radius count =>
      let index : ℚ := ((e.particles.length % count : ℕ) : ℚ)
      let angle := index * tauQ / (count : ℚ)
      e.position + ⟨cosQ angle * radius, 0, sinQ angle * radius⟩
  | EmissionPattern.Spiral radius height rotations =>
      let t := fmodQ e.age 10 / 10
      let angle := t * tauQ * rotations
      let r := radius * t
      e.position + ⟨cosQ angle * r, height * t, sinQ angle * r⟩
  | EmissionPattern.Burst radius angle_offset =>
      e.position + ⟨cosQ angle_offset * radius, 0, sinQ angle_offset * radius⟩

/-- Model of `ParticleEmitter::emit`: an early return leaves the emitter
untouched when the pool already holds 100 or more particles (the Rust guard
is the literal `100`, not `self.max_particles`); otherwise a particle built
from the sampled spawn position and the emitter's configuration is pushed
onto the pool. -/
def ParticleEmitter.emit (rnd : Vec3) (e : ParticleEmitter) : ParticleEmitter :=
  if 100 ≤ e.particles.length then e
  else
    let particle := Particle.new
      { position := e.spawnPosition rnd
        direction := e.direction
        spread_angle := e.spread_angle
        speed := e.initial_velocity
        size := e.particle_size
        color := Vec3.one
        particle_lifetime := e.particle_lifetime }
    { e with particles := e.particles ++ [particle] }

/-- The first half of `ParticleEmitter::update(dt)`, up to but excluding the
final `retain_mut` cull: advance the emission timer and emit when it reaches
the interval (resetting it), advance the age, then apply the Fire/Smoke
per-type emitter perturbations.  `rnd` is the randomness oracle for the
possible `emit` call. -/
def ParticleEmitter.updatePre (dt : ℚ) (rnd : Vec3) (e : ParticleEmitter) : ParticleEmitter :=
  let e1 := { e with emit_timer := e.emit_timer + dt }
  let e2 :=
    if e1.emission_interval ≤ e1.emit_timer then
      ParticleEmitter.emit rnd { e1 with emit_timer := 0 }
    else e1
  let e3 := { e2 with age := e2.age + dt }
  match e3.particle_type with
  | ParticleType.Fire =>
      { e3 with emission_rate := e3.emission_rate * (1 + 0.2 * sinQ (e3.age * 5)) }
  | ParticleType.Smoke =>
      let d := e3.direction +
        (⟨0.1 * sinQ (e3.age * 0.5), 0.1 * cosQ (e3.age * 0.7), 0.1 * sinQ (e3.age * 0.3)⟩ : Vec3)
      { e3 with direction := d.normalize }
  | _ => e3

/-- Model of `ParticleEmitter::update(dt)`: the pre-cull stage
(`updatePre`), then the `retain_mut` pass that updates every particle and
retains exactly those with `age < lifetime`. -/
def ParticleEmitter.update (dt : ℚ) (rnd : Vec3) (e : ParticleEmitter) : ParticleEmitter :=
  let e4 := ParticleEmitter.updatePre dt rnd e
  { e4 with particles := (e4.particles.map (Particle.update dt)).filter (fun p => p.age < p.lifetime) }

/-- One externally driven operation on an emitter: a frame tick
(`update(dt)`) or a direct `emit()` call, each with its randomness oracle. -/
inductive EmitterOp where
  | tick (dt : ℚ) (rnd : Vec3)
  | emit (rnd : Vec3)
deriving DecidableEq, Repr

/-- Apply one `EmitterOp`. -/
def ParticleEmitter.applyOp (e : ParticleEmitter) : EmitterOp → ParticleEmitter
  | EmitterOp.tick dt rnd => e.update dt rnd
  | EmitterOp.emit rnd => ParticleEmitter.emit rnd e

/-- Apply a sequence of `EmitterOp`s in order. -/
def ParticleEmitter.applyOps (e : ParticleEmitter) (ops : List EmitterOp) : ParticleEmitter :=
  ops.foldl ParticleEmitter.applyOp e

/-- Iterate `ParticleEmitter::update` with a fixed `dt`: step `i` consumes
oracle value `rnd i`. -/
def ParticleEmitter.updateIter : ℕ → ℚ → (ℕ → Vec3) → ParticleEmitter → ParticleEmitter
  | 0, _, _, e => e
  | n + 1, dt, rnd, e =>
      ParticleEmitter.updateIter n dt (fun i => rnd (i + 1)) (e.update dt (rnd 0))

/-- Iterate `Particle::update` with a fixed `dt`. -/
def Particle.updateIter : ℕ → ℚ → Particle → Particle
  | 0, _, p => p
  | n + 1, dt, p => Particle.updateIter n dt (p.update dt)

/-- Fold `Particle::update` over a list of time steps. -/
def Particle.updates (dts : List ℚ) (p : Particle) : Particle :=
  dts.foldl (fun q d => Particle.update d q) p

/-! ## Embedding of `src/lighting.rs` -/

/-- Model of `lighting::Light`. -/
structure Light where
  position : Vec3
  color : Vec3
  intensity : ℚ
deriving DecidableEq, Repr

/-- Model of `lighting::Material` (the material type used by the scene
graph). -/
structure Material where
  ambient : Vec3
  diffuse : Vec3
  specular : Vec3
  shininess : ℚ
deriving DecidableEq, Repr

/-- Model of `LightingUBO`; the `[Light; 4]` array is a four-element list. -/
structure LightingUBO where
  lights : List Light
  material : Material
  view_pos : Vec3
deriving DecidableEq, Repr

/-- Model of `LightingUBO::new`: the four pre-populated default lights (all
with nonzero positions), the default material, and the default view
position. -/
def LightingUBO.new : LightingUBO :=
  { lights :=
      [⟨⟨0, 0, 2⟩, ⟨1, 1, 1⟩, 1⟩,
       ⟨⟨2, 2, 2⟩, ⟨1, 0, 0⟩, 0.5⟩,
       ⟨⟨-2, 2, 2⟩, ⟨0, 1, 0⟩, 0.5⟩,
       ⟨⟨0, -2, 2⟩, ⟨0, 0, 1⟩, 0.5⟩]
    material := ⟨⟨0.1, 0.1, 0.1⟩, ⟨0.7, 0.7, 0.7⟩, ⟨1, 1, 1⟩, 32⟩
    view_pos := ⟨0, 0, -3⟩ }

/-- Model of `LightManager`. -/
structure LightManager where
  lighting_ubo : LightingUBO
deriving DecidableEq, Repr

/-- Model of `LightManager::new`. -/
def LightManager.new : LightManager := ⟨LightingUBO.new⟩

/-- The `for l in lights.iter_mut()` loop body of `LightManager::add_light`:
replace the first slot whose position is `Vec3::ZERO`, or report that no slot
was free. -/
def replaceFirstFreeSlot : List Light → Light → Option (List Light)
  | [], _ => none
  | l :: ls, light =>
      if l.position = Vec3.zero then some (light :: ls)
      else (replaceFirstFreeSlot ls light).map (fun ls2 => l :: ls2)

/-- Model of `LightManager::add_light`: refuse (returning `false`) if any
slot already holds a light at the same position, otherwise store the light
in the first slot whose position is `Vec3::ZERO`, returning whether a slot
was found. -/
def LightManager.add_light (light : Light) (m : LightManager) : Bool × LightManager :=
  if m.lighting_ubo.lights.any (fun l => l.position = light.position) then
    (false, m)
  else
    match replaceFirstFreeSlot m.lighting_ubo.lights light with
    | some ls => (true, { m with lighting_ubo := { m.lighting_ubo with lights := ls } })
    | none => (false, m)

/-- Model of `LightManager::clear_lights`: overwrite every slot with the
all-zero light. -/
def LightManager.clear_lights (m : LightManager) : LightManager :=
  { m with lighting_ubo :=
      { m.lighting_ubo with lights := m.lighting_ubo.lights.map (fun _ => ⟨Vec3.zero, Vec3.zero, 0⟩) } }

/-- Model of `LightManager::remove_light`: out-of-range indices return
`false`; otherwise the slot is reset to the all-zero light. -/
def LightManager.remove_light (index : ℕ) (m : LightManager) : Bool × LightManager :=
  if m.lighting_ubo.lights.length ≤ index then (false, m)
  else
    (true, { m with lighting_ubo :=
        { m.lighting_ubo with lights := m.lighting_ubo.lights.set index ⟨Vec3.zero, Vec3.zero, 0⟩ } })

/-- Fold `LightManager::add_light` over a list of lights, collecting each
call's boolean result. -/
def LightManager.addLights (m : LightManager) : List Light → List Bool × LightManager
  | [] => ([], m)
  | light :: rest =>
      let r := m.add_light light
      let rec2 := r.2.addLights rest
      (r.1 :: rec2.1, rec2.2)

/-! ## Embedding of `PathFollowBehavior` (src/particle_behavior.rs) -/

/-- Model of `PathFollowBehavior`. -/
structure PathFollowBehavior where
  path : List Vec3
  loop_path : Bool
  path_radius : ℚ
  look_ahead : ℚ
  arrival_threshold : ℚ
deriving DecidableEq, Repr

/-- Model of `PathFollowBehavior::calculate_force`.  The nearest-waypoint scan
is the `for (i, point) in path.iter().enumerate()` loop with its
`f32::MAX`-initialized running minimum; note that the Rust source computes
`look_ahead_index = (target_index + 1) % path.len()`, which is always in
bounds for a non-empty path, so the subsequent `loop_path` test and the
zero-force fallthrough are syntactically present but unreachable; the
embedding keeps all three branches. -/
def PathFollowBehavior.calculate_force (b : PathFollowBehavior) (position _velocity : Vec3) : Vec3 :=
  if b.path.isEmpty then Vec3.zero
  else
    let st := b.path.enum.foldl
      (fun (st : Vec3 × ℚ × ℕ) ip =>
        let dist := position.distance ip.2
        if dist < st.2.1 then (ip.2, dist, ip.1) else st)
      (b.path.headD Vec3.zero, f32Max, 0)
    let target_index := st.2.2
    let lookIdx := (target_index + 1) % b.path.length
    let steer := fun (target : Vec3) =>
      let to_target := target - position
      let distance := to_target.length
      if distance < b.arrival_threshold then
        to_target * (distance / b.arrival_threshold)
      else
        to_target.normalize * b.look_ahead
    if lookIdx < b.path.length then steer (b.path.getD lookIdx Vec3.zero)
    else if b.loop_path then steer (b.path.headD Vec3.zero)
    else Vec3.zero

/-! ## Embedding of `src/model.rs` and the scene graph (`src/scene.rs`) -/

/-- Model of `model::Vertex`. -/
structure Vertex where
  position : Vec3
  normal : Vec3
  tex_coords : Vec2
deriving DecidableEq, Repr

/-- Model of `model::Mesh`. -/
structure Mesh where
  vertices : List Vertex
  indices : List ℕ
deriving DecidableEq, Repr

/-- Model of `model::Model` (the `Arc<Model>` sharing of the immutable model
data is invisible to the embedding). -/
structure Model where
  meshes : List Mesh
deriving DecidableEq, Repr

/-- Model of `scene::Transform`. -/
structure Transform where
  position : Vec3
  rotation : Quat
  scale : Vec3
deriving DecidableEq, Repr

/-- Model of `Transform::default`. -/
def Transform.default : Transform := ⟨Vec3.zero, Quat.identity, Vec3.one⟩

/-- Model of `Transform::matrix`. -/
def Transform.matrix (t : Transform) : Mat4 :=
  Mat4.from_scale_rotation_translation t.scale t.rotation t.position

/-- Model of `SceneObject`. -/
structure SceneObject where
  name : String
  transform : Transform
  model : Option Model
  material : Material
  children : List ℕ
  parent : Option ℕ
deriving DecidableEq, Repr

instance : Inhabited SceneObject :=
  ⟨⟨"", Transform.default, none, ⟨Vec3.zero, Vec3.zero, Vec3.zero, 0⟩, [], none⟩⟩

/-- Model of `SceneObject::new`. -/
def SceneObject.new (name : String) (transform : Transform) (model : Option Model)
    (material : Material) : SceneObject :=
  { name := name, transform := transform, model := model, material := material
    children := [], parent := none }

/-- Model of `Scene`.  The private `HashMap<String, usize>` registry is
modelled as an association list holding at most one binding per key
(`mapInsert` and `mapRemove` below maintain that shape); `HashMap` iteration
order is arbitrary in Rust, and every theorem that relies on a reverse lookup
does so in a state where at most one entry can match, so the list order is
immaterial. -/
structure Scene where
  objects : List SceneObject
  object_map : List (String × ℕ)
  light_manager : LightManager
  root_objects : List ℕ
deriving DecidableEq, Repr

/-- `HashMap::get` on the modelled registry. -/
def mapLookup (m : List (String × ℕ)) (k : String) : Option ℕ :=
  (m.find? (fun p => p.1 == k)).map (fun p => p.2)

/-- `HashMap::insert` on the modelled registry (replaces any existing
binding of the key). -/
def mapInsert (k : String) (v : ℕ) (m : List (String × ℕ)) : List (String × ℕ) :=
  (k, v) :: m.filter (fun p => p.1 != k)

/-- `HashMap::remove` on the modelled registry. -/
def mapRemove (k : String) (m : List (String × ℕ)) : List (String × ℕ) :=
  m.filter (fun p => p.1 != k)

/-- The reverse lookup `map.iter().find(|(_, id)| id == child_id)` used by
`Scene::remove_object`. -/
def reverseLookup (m : List (String × ℕ)) (id : ℕ) : Option String :=
  (m.find? (fun p => p.2 == id)).map (fun p => p.1)

/-- Rust's `self.objects[i]`; out-of-range indexing panics in Rust and yields
the default object here, but every scene reachable through `add_object` /
`remove_object` keeps all stored indices in range (part of `SceneInv`
below). -/
def Scene.obj (s : Scene) (i : ℕ) : SceneObject :=
  s.objects.getD i default

/-- In-place mutation `self.objects[i] = f(self.objects[i])` (a no-op when
`i` is out of range, where Rust would panic; see `Scene.obj`). -/
def listModify (l : List SceneObject) (i : ℕ) (f : SceneObject → SceneObject) : List SceneObject :=
  match l.get? i with
  | some a => l.set i (f a)
  | none => l

/-- Model of `Scene::new`. -/
def Scene.new : Scene :=
  { objects := [], object_map := [], light_manager := LightManager.new, root_objects := [] }

/-- Model of `Scene::add_object`: a named parent that is absent from the
registry fails with the `anyhow::bail!` NotFound error before any state is
touched; otherwise the new object is appended to the flat storage (its id is
the pre-insertion length), linked into the parent's children list or the
root list, and registered in the map. -/
def Scene.add_object (name : String) (transform : Transform) (model : Option Model)
    (material : Material) (parent : Option String) (s : Scene) : Except String (ℕ × Scene) :=
  let object_id := s.objects.length
  let object := SceneObject.new name transform model material
  match parent with
  | some parent_name =>
      match mapLookup s.object_map parent_name with
      | some parent_id =>
          let object2 := { object with parent := some parent_id }
          let objects2 := listModify s.objects parent_id
            (fun o => { o with children := o.children ++ [object_id] })
          Except.ok (object_id,
            { s with objects := objects2 ++ [object2]
                     object_map := mapInsert name object_id s.object_map })
      | none => Except.error ("Parent object " ++ parent_name ++ " not found")
  | none =>
      Except.ok (object_id,
        { s with objects := s.objects ++ [object]
                 object_map := mapInsert name object_id s.object_map
                 root_objects := s.root_objects ++ [object_id] })

/-- Steps one and two of `Scene::remove_object`: unlink the target from its
parent's children list (first occurrence, when the target has a parent) and
from the root list (first occurrence). -/
def removeUnlinked (s : Scene) (object_id : ℕ) : Scene :=
  let s1 :=
    match (s.obj object_id).parent with
    | some parent_id =>
        { s with objects := listModify s.objects parent_id (fun o => { o with children := o.children.erase object_id }) }
    | none => s
  { s1 with root_objects := s1.root_objects.erase object_id }

mutual

/-- Model of `Scene::remove_object`, fuel-indexed: the Rust method recurses
through the children via reverse name lookups, so the embedding carries an
explicit fuel (the Rust original would diverge on a cyclic `children`
graph, which no reachable scene has; `removeOk` below shows that
the fuel supplied by `Scene.remove_object` never runs out on well-formed
scenes).  A missing name fails with the `anyhow::bail!` NotFound error.
Steps, exactly as in the source: unlink from the parent's children list
(first occurrence), unlink from the root list (first occurrence), clone the
children list and recursively remove each child by its reverse-looked-up
name, finally erase the object's own registry entry. -/
def removeObjectFuel (fuel : ℕ) (s : Scene) (name : String) : Except String Scene :=
  match fuel with
  | 0 => Except.error "recursion budget exhausted"
  | fuel2 + 1 =>
      match mapLookup s.object_map name with
      | none => Except.error ("Object " ++ name ++ " not found")
      | some object_id =>
          let s2 := removeUnlinked s object_id
          match removeChildrenFuel fuel2 s2 ((s2.obj object_id).children) with
          | Except.error e => Except.error e
          | Except.ok s3 => Except.ok { s3 with object_map := mapRemove name s3.object_map }
termination_by (fuel, 0)

/-- The `for child_id in children` loop of `Scene::remove_object`: resolve
each child id back to its name through the registry and remove it
recursively (children whose id has no registry entry are skipped, as in the
source). -/
def removeChildrenFuel (fuel : ℕ) (s : Scene) (cs : List ℕ) : Except String Scene :=
  match cs with
  | [] => Except.ok s
  | c :: rest =>
      match reverseLookup s.object_map c with
      | some child_name =>
          match removeObjectFuel fuel s child_name with
          | Except.error e => Except.error e
          | Except.ok s2 => removeChildrenFuel fuel s2 rest
      | none => removeChildrenFuel fuel s rest
termination_by (fuel, cs.length + 1)

end

/-- Model of `Scene::remove_object` with the fuel fixed large enough for any
well-formed scene (each recursive call moves to a strictly larger object
index, so the nesting depth is bounded by the flat-storage length). -/
def Scene.remove_object (name : String) (s : Scene) : Except String Scene :=
  removeObjectFuel (s.objects.length + 1) s name

/-- Model of `Scene::get_object`. -/
def Scene.get_object (s : Scene) (name : String) : Option SceneObject :=
  (mapLookup s.object_map name).map (fun id => s.obj id)

/-- Model of `Scene::add_light` (delegation to the light manager). -/
def Scene.add_light (light : Light) (s : Scene) : Bool × Scene :=
  let r := s.light_manager.add_light light
  (r.1, { s with light_manager := r.2 })

/-- The recursion of `Scene::update_object_transform`, fuel-indexed (the
Rust original would diverge on a cyclic `children` graph, which no
reachable scene has).  The Rust method computes
`world = parent * local` at every visited node and recurses into the
children, but stores the computed matrix nowhere; the embedding returns the
list of `(object_id, world)` pairs in visit order so that the computed
values can be observed. -/
def updateObjectTransformFuel : ℕ → Scene → ℕ → Mat4 → List (ℕ × Mat4)
  | 0, _, _, _ => []
  | fuel + 1, s, object_id, parent_transform =>
      let world := parent_transform * (s.obj object_id).transform.matrix
      (object_id, world) ::
        (s.obj object_id).children.flatMap (fun c => updateObjectTransformFuel fuel s c world)

/-- Model of `Scene::update_transforms`: every root is visited with the
identity parent matrix. -/
def Scene.update_transforms (s : Scene) : List (ℕ × Mat4) :=
  s.root_objects.flatMap (fun r => updateObjectTransformFuel (s.objects.length + 1) s r Mat4.identity)

/-- The recursion of `SceneObject::world_matrix`, fuel-indexed over the
parent chain (every reachable scene has strictly decreasing parent
indices).  A parent index out of range of the flat storage falls back to the
local matrix, via `Vec::get`, exactly as in the source. -/
def worldMatrixFuel : ℕ → Scene → SceneObject → Mat4
  | 0, _, o => o.transform.matrix
  | fuel + 1, s, o =>
      let localM := o.transform.matrix
      match o.parent with
      | some parent_id =>
          match s.objects.get? parent_id with
          | some parentObj => worldMatrixFuel fuel s parentObj * localM
          | none => localM
      | none => localM

/-- Model of `SceneObject::world_matrix`. -/
def SceneObject.world_matrix (o : SceneObject) (s : Scene) : Mat4 :=
  worldMatrixFuel (s.objects.length + 1) s o

/-- The recursion of `Scene::traverse`, fuel-indexed; the visitor callback is
modelled by returning the visited objects in visit order (depth-first
pre-order from the given id list). -/
def traverseFuel : ℕ → Scene → List ℕ → List SceneObject
  | 0, _, _ => []
  | fuel + 1, s, ids =>
      ids.flatMap (fun id => s.obj id :: traverseFuel fuel s (s.obj id).children)

/-- Model of `Scene::traverse` (visit order of the visitor callback). -/
def Scene.traverse (s : Scene) : List SceneObject :=
  traverseFuel (s.objects.length + 1) s s.root_objects

/-! ## Basic lemmas about the saturating lifetime arithmetic -/

theorem satSub_nonneg (a b : ℚ) : 0 ≤ satSub a b := le_max_right _ _

theorem satSub_le_self (a b : ℚ) (hb : 0 ≤ b) (ha : 0 ≤ a) : satSub a b ≤ a :=
  max_le (by linarith) ha

theorem satSub_eq_zero (a b : ℚ) (h : a ≤ b) : satSub a b = 0 :=
  max_eq_right (by linarith)

theorem satSub_satSub (a b c : ℚ) (_hb : 0 ≤ b) (hc : 0 ≤ c) :
    satSub (satSub a b) c = satSub a (b + c) := by
  unfold satSub
  rcases le_total (a - b) 0 with h | h
  · rw [max_eq_right h, max_eq_right (by linarith), max_eq_right (by linarith)]
  · rw [max_eq_left h]
    congr 1
    ring

/-- Every arm of the `Particle::update` match performs the identical
saturating lifetime decrement. -/
theorem Particle.update_lifetime (dt : ℚ) (p : Particle) :
    (p.update dt).lifetime = satSub p.lifetime dt := by
  cases h : p.particle_type <;> simp [Particle.update, h]

/-- `Particle::update` never writes the `age` field. -/
theorem Particle.update_age (dt : ℚ) (p : Particle) : (p.update dt).age = p.age := by
  cases h : p.particle_type <;> simp [Particle.update, h]

/-- `Particle::update` never changes the particle's type tag. -/
theorem Particle.update_particle_type (dt : ℚ) (p : Particle) :
    (p.update dt).particle_type = p.particle_type := by
  cases h : p.particle_type <;> simp [Particle.update, h]

theorem Particle.updateIter_lifetime (n : ℕ) (dt : ℚ) (p : Particle) (hdt : 0 ≤ dt) :
    (Particle.updateIter (n + 1) dt p).lifetime = satSub p.lifetime ((n + 1 : ℕ) * dt) := by
  induction n generalizing p with
  | zero => simp [Particle.updateIter, Particle.update_lifetime]
  | succ k ih =>
      rw [Particle.updateIter, ih, Particle.update_lifetime,
        satSub_satSub _ _ _ hdt (by positivity)]
      congr 1
      push_cast
      ring

theorem Particle.updateIter_age (n : ℕ) (dt : ℚ) (p : Particle) :
    (Particle.updateIter n dt p).age = p.age := by
  induction n generalizing p with
  | zero => rfl
  | succ k ih => rw [Particle.updateIter, ih, Particle.update_age]

/-! ## Claim C6: particle lifetime only decreases, saturating at zero -/

/-- Claim C6: for every particle and every sequence of `Particle::update`
calls with nonnegative `dt`, the remaining lifetime is decremented by the
saturating subtraction (`satSub`, the model of
`Duration::saturating_sub(Duration::from_secs_f32(dt))` applied identically
in every arm of the per-type match), hence it only decreases, saturates at
zero, and is never negative; `Particle.update` is a total function, the
embedded counterpart of the Rust method never panicking on lifetime
underflow. -/
theorem claim_C6_lifetime_saturating :
    (∀ (p : Particle) (dt : ℚ), (p.update dt).lifetime = satSub p.lifetime dt) ∧
    (∀ (p : Particle) (dt : ℚ), 0 ≤ (p.update dt).lifetime) ∧
    (∀ (p : Particle) (dt : ℚ), 0 ≤ dt → 0 ≤ p.lifetime → (p.update dt).lifetime ≤ p.lifetime) ∧
    (∀ (p : Particle) (dt : ℚ), p.lifetime ≤ dt → (p.update dt).lifetime = 0) ∧
    (∀ (p : Particle) (dts : List ℚ), (∀ d ∈ dts, 0 ≤ d) → 0 ≤ p.lifetime →
       0 ≤ (p.updates dts).lifetime ∧ (p.updates dts).lifetime ≤ p.lifetime) := by
  refine ⟨fun p dt => Particle.update_lifetime dt p, ?_, ?_, ?_, ?_⟩
  · intro p dt
    rw [Particle.update_lifetime]
    exact satSub_nonneg _ _
  · intro p dt hdt hp
    rw [Particle.update_lifetime]
    exact satSub_le_self _ _ hdt hp
  · intro p dt h
    rw [Particle.update_lifetime]
    exact satSub_eq_zero _ _ h
  · intro p dts
    induction dts generalizing p with
    | nil => exact fun _ hp => ⟨hp, le_refl _⟩
    | cons d rest ih =>
        intro hnn hp
        have hd : 0 ≤ d := hnn d (List.mem_cons_self _ _)
        have h1 : 0 ≤ (p.update d).lifetime := by
          rw [Particle.update_lifetime]; exact satSub_nonneg _ _
        have h2 : (p.update d).lifetime ≤ p.lifetime := by
          rw [Particle.update_lifetime]; exact satSub_le_self _ _ hd hp
        have := ih (p.update d) (fun e he => hnn e (List.mem_cons_of_mem _ he)) h1
        exact ⟨this.1, le_trans (by simpa [Particle.updates] using this.2) h2⟩

/-- Concrete instantiation of `claim_C6_lifetime_saturating`: a particle with
one second of lifetime, ticked by 2 and then 1 seconds. -/
theorem claim_C6_lifetime_saturating_witness :
    (Particle.defaultValue.lifetime ≤ 2 ∧ (Particle.defaultValue.update 2).lifetime = 0) ∧
    (0 : ℚ) ≤ Particle.defaultValue.lifetime ∧
    0 ≤ (Particle.defaultValue.updates [2, 1]).lifetime ∧
    (Particle.defaultValue.updates [2, 1]).lifetime ≤ Particle.defaultValue.lifetime := by
  refine ⟨⟨by decide, claim_C6_lifetime_saturating.2.2.2.1 Particle.defaultValue 2 (by decide)⟩, by decide, ?_⟩
  exact claim_C6_lifetime_saturating.2.2.2.2 Particle.defaultValue [2, 1] (by decide) (by decide)

/-! ## Claim C3: expired particles are absent after enough ticks -/

/-- After any single `ParticleEmitter::update` tick, every particle retained
in the pool satisfies the cull predicate `age < lifetime` (the
`retain_mut` filter of the source). -/
theorem ParticleEmitter.mem_update_age_lt (dt : ℚ) (rnd : Vec3) (e : ParticleEmitter) :
    ∀ p ∈ (e.update dt rnd).particles, p.age < p.lifetime := by
  intro p hp
  have h2 : p ∈ ((ParticleEmitter.updatePre dt rnd e).particles.map (Particle.update dt)).filter
      (fun p => decide (p.age < p.lifetime)) := hp
  simpa using (List.mem_filter.mp h2).2

/-- After at least one emitter tick, every pool member satisfies
`age < lifetime`. -/
theorem ParticleEmitter.mem_updateIter_age_lt (n : ℕ) (dt : ℚ) (rnd : ℕ → Vec3)
    (e : ParticleEmitter) :
    ∀ p ∈ (ParticleEmitter.updateIter (n + 1) dt rnd e).particles, p.age < p.lifetime := by
  induction n generalizing rnd e with
  | zero => exact fun p hp => ParticleEmitter.mem_update_age_lt dt (rnd 0) e p hp
  | succ k ih =>
      intro p hp
      rw [ParticleEmitter.updateIter] at hp
      exact ih _ _ p hp

/-- Claim C3: a particle of an emitter's pool whose initial lifetime `L`
satisfies `N·dt ≥ L` is absent from the pool after `N` calls of
`ParticleEmitter::update(dt)` — its `N`-fold updated image (the value the
retained particle would have, since `Particle::update` is deterministic)
cannot be a pool member, because the saturating lifetime decrement has
reached zero while the cull predicate `age < lifetime` holds for every pool
member after a tick, the code using the remaining-lifetime counter
consistently for both the update and the cull decision. -/
theorem claim_C3_expired_particle_absent :
    ∀ (e : ParticleEmitter) (q : Particle) (dt : ℚ) (N : ℕ) (rnd : ℕ → Vec3),
      q ∈ e.particles → 0 ≤ q.age → 0 ≤ dt → q.lifetime ≤ (N : ℚ) * dt → 1 ≤ N →
      Particle.updateIter N dt q ∉ (ParticleEmitter.updateIter N dt rnd e).particles := by
  intro e q dt N rnd _hq hage hdt hlife hN hmem
  obtain ⟨m, rfl⟩ : ∃ m, N = m + 1 := ⟨N - 1, (Nat.succ_pred_eq_of_pos hN).symm⟩
  have hzero : (Particle.updateIter (m + 1) dt q).lifetime = 0 := by
    rw [Particle.updateIter_lifetime m dt q hdt]
    exact satSub_eq_zero _ _ hlife
  have hlt := ParticleEmitter.mem_updateIter_age_lt m dt rnd e _ hmem
  rw [hzero, Particle.updateIter_age] at hlt
  exact absurd hlt (not_lt.mpr hage)

/-- Concrete instantiation of `claim_C3_expired_particle_absent`: a
one-second particle in a freshly built emitter pool is gone after one
one-second tick. -/
theorem claim_C3_expired_particle_absent_witness :
    (Particle.defaultValue ∈
        ({ ParticleEmitterBuilder.build { ParticleEmitterBuilder.new with particle_lifetime := 5 }
            with particles := [Particle.defaultValue] } : ParticleEmitter).particles ∧
      (0 : ℚ) ≤ Particle.defaultValue.age ∧ (0 : ℚ) ≤ 1 ∧
      Particle.defaultValue.lifetime ≤ ((1 : ℕ) : ℚ) * 1 ∧ 1 ≤ 1) ∧
    Particle.updateIter 1 1 Particle.defaultValue ∉
      (ParticleEmitter.updateIter 1 1 (fun _ => Vec3.zero)
        ({ ParticleEmitterBuilder.build { ParticleEmitterBuilder.new with particle_lifetime := 5 }
            with particles := [Particle.defaultValue] } : ParticleEmitter)).particles :=
  ⟨⟨by decide, by decide, by decide, by simp [Particle.defaultValue], by decide⟩,
    claim_C3_expired_particle_absent _ Particle.defaultValue 1 1 (fun _ => Vec3.zero)
      (by decide) (by decide) (by decide) (by simp [Particle.defaultValue]) (by decide)⟩

/-! ## Claim C2: the pool is bounded and emission skips at capacity -/

/-- `ParticleEmitter::emit` preserves the 100-particle pool bound. -/
theorem ParticleEmitter.emit_length_le (rnd : Vec3) (e : ParticleEmitter)
    (h : e.particles.length ≤ 100) : (ParticleEmitter.emit rnd e).particles.length ≤ 100 := by
  unfold ParticleEmitter.emit
  split
  · exact h
  · rename_i hlt
    simp only [List.length_append, List.length_cons, List.length_nil]
    omega

/-- `ParticleEmitter::emit` never changes the emitter's type tag. -/
theorem ParticleEmitter.emit_particle_type (rnd : Vec3) (e : ParticleEmitter) :
    (ParticleEmitter.emit rnd e).particle_type = e.particle_type := by
  unfold ParticleEmitter.emit
  split <;> rfl

/-- The pool produced by the pre-cull stage of `ParticleEmitter::update`:
only the possible `emit` call touches it (the Fire/Smoke perturbations write
other fields). -/
theorem ParticleEmitter.updatePre_particles (dt : ℚ) (rnd : Vec3) (e : ParticleEmitter) :
    (ParticleEmitter.updatePre dt rnd e).particles =
      if e.emission_interval ≤ e.emit_timer + dt then
        (ParticleEmitter.emit rnd { e with emit_timer := 0 }).particles
      else e.particles := by
  by_cases hc : e.emission_interval ≤ e.emit_timer + dt
  · simp only [ParticleEmitter.updatePre, hc, if_pos, if_true]
    cases htype : (ParticleEmitter.emit rnd
        ({ e with emit_timer := 0 } : ParticleEmitter)).particle_type <;> simp [htype]
  · simp only [ParticleEmitter.updatePre, hc, if_neg, if_false]
    cases htype : e.particle_type <;> simp [htype]

/-- `ParticleEmitter::update` preserves the 100-particle pool bound (the
cull only shrinks the pool produced by the pre-cull stage). -/
theorem ParticleEmitter.update_length_le (dt : ℚ) (rnd : Vec3) (e : ParticleEmitter)
    (h : e.particles.length ≤ 100) : (e.update dt rnd).particles.length ≤ 100 := by
  have hpre : (ParticleEmitter.updatePre dt rnd e).particles.length ≤ 100 := by
    rw [ParticleEmitter.updatePre_particles]
    split
    · exact ParticleEmitter.emit_length_le _ _ h
    · exact h
  calc (e.update dt rnd).particles.length
      ≤ ((ParticleEmitter.updatePre dt rnd e).particles.map (Particle.update dt)).length :=
        List.length_filter_le _ _
    _ ≤ 100 := by simpa using hpre
  
/-- `ParticleEmitter::emit` never writes the `max_particles` field. -/
theorem ParticleEmitter.emit_max_particles (rnd : Vec3) (e : ParticleEmitter) :
    (ParticleEmitter.emit rnd e).max_particles = e.max_particles := by
  unfold ParticleEmitter.emit
  split <;> rfl

/-- `ParticleEmitter::update` never writes the `max_particles` field. -/
theorem ParticleEmitter.update_max_particles (dt : ℚ) (rnd : Vec3) (e : ParticleEmitter) :
    (e.update dt rnd).max_particles = e.max_particles := by
  show (ParticleEmitter.updatePre dt rnd e).max_particles = e.max_particles
  by_cases hc : e.emission_interval ≤ e.emit_timer + dt
  · simp only [ParticleEmitter.updatePre, hc, if_true]
    cases htype : (ParticleEmitter.emit rnd
        ({ e with emit_timer := 0 } : ParticleEmitter)).particle_type <;>
      simp [htype, ParticleEmitter.emit_max_particles]
  · simp only [ParticleEmitter.updatePre, hc, if_false]
    cases htype : e.particle_type <;> simp [htype]

/-- Neither operation of `EmitterOp` writes the `max_particles` field. -/
theorem ParticleEmitter.applyOp_max_particles (e : ParticleEmitter) (op : EmitterOp) :
    (e.applyOp op).max_particles = e.max_particles := by
  cases op with
  | emit rnd => exact ParticleEmitter.emit_max_particles rnd e
  | tick dt rnd => exact ParticleEmitter.update_max_particles dt rnd e

/-- Claim C2 (part): pool bound along arbitrary operation sequences. -/
theorem ParticleEmitter.applyOps_length_le (e : ParticleEmitter) (ops : List EmitterOp)
    (h : e.particles.length ≤ 100) : (e.applyOps ops).particles.length ≤ 100 := by
  induction ops generalizing e with
  | nil => exact h
  | cons op rest ih =>
      have h1 : (e.applyOp op).particles.length ≤ 100 := by
        cases op with
        | emit rnd => exact ParticleEmitter.emit_length_le rnd e h
        | tick dt rnd => exact ParticleEmitter.update_length_le dt rnd e h
      exact ih _ h1

/-- Claim C2: for every emitter produced by `ParticleEmitterBuilder::build`
and every sequence of `update`/`emit` calls with arbitrary tick sizes and
randomness, the pool length never exceeds the emitter's `max_particles`
field (the builder fixes it at 100, and neither operation ever writes it),
and `emit` is a silent no-op — the emitter is returned unchanged — whenever
the pool is at (or beyond) the 100-particle capacity. -/
theorem claim_C2_pool_bounded :
    (∀ (b : ParticleEmitterBuilder) (ops : List EmitterOp),
        (b.build.applyOps ops).particles.length ≤ (b.build.applyOps ops).max_particles) ∧
    (∀ (b : ParticleEmitterBuilder) (ops : List EmitterOp),
        (b.build.applyOps ops).max_particles = 100) ∧
    (∀ (e : ParticleEmitter) (rnd : Vec3),
        100 ≤ e.particles.length → ParticleEmitter.emit rnd e = e) := by
  have hmax : ∀ (b : ParticleEmitterBuilder) (ops : List EmitterOp),
      (b.build.applyOps ops).max_particles = 100 := by
    intro b ops
    induction ops generalizing b with
    | nil => rfl
    | cons op rest ih =>
        have : (b.build.applyOp op).max_particles = 100 :=
          (ParticleEmitter.applyOp_max_particles _ _).trans rfl
        -- restart the induction from an emitter with the same invariant
        clear ih
        suffices h : ∀ (e : ParticleEmitter), e.max_particles = 100 →
            (e.applyOps rest).max_particles = 100 from h _ this
        intro e he
        induction rest generalizing e with
        | nil => exact he
        | cons op2 rest2 ih2 =>
            exact ih2 _ ((ParticleEmitter.applyOp_max_particles _ _).trans he)
  refine ⟨?_, hmax, ?_⟩
  · intro b ops
    rw [hmax]
    suffices h : ∀ (e : ParticleEmitter), e.particles.length ≤ 100 →
        (e.applyOps ops).particles.length ≤ 100 from
      h _ (by simp [ParticleEmitterBuilder.build])
    exact fun e he => ParticleEmitter.applyOps_length_le e ops he
  · intro e rnd h
    unfold ParticleEmitter.emit
    rw [if_pos h]

/-- Concrete instantiation of `claim_C2_pool_bounded`: a freshly built
default emitter driven by one tick and one emit, and a saturated pool of
100 default particles on which `emit` is the identity. -/
theorem claim_C2_pool_bounded_witness :
    ((ParticleEmitterBuilder.new.build.applyOps
        [EmitterOp.tick 1 Vec3.zero, EmitterOp.emit Vec3.zero]).particles.length ≤
      (ParticleEmitterBuilder.new.build.applyOps
        [EmitterOp.tick 1 Vec3.zero, EmitterOp.emit Vec3.zero]).max_particles) ∧
    (100 ≤ ({ ParticleEmitterBuilder.new.build with
        particles := List.replicate 100 Particle.defaultValue } : ParticleEmitter).particles.length ∧
      ParticleEmitter.emit Vec3.zero
        ({ ParticleEmitterBuilder.new.build with
            particles := List.replicate 100 Particle.defaultValue } : ParticleEmitter) =
        { ParticleEmitterBuilder.new.build with
            particles := List.replicate 100 Particle.defaultValue }) :=
  ⟨claim_C2_pool_bounded.1 ParticleEmitterBuilder.new
      [EmitterOp.tick 1 Vec3.zero, EmitterOp.emit Vec3.zero],
    by simp, claim_C2_pool_bounded.2.2 _ Vec3.zero (by simp)⟩

/-! ## Claim C9: every emitted particle is Debris and spread_angle is inert -/

/-- Claim C9: `Particle::new` hardcodes `ParticleType::Debris`, so every
particle constructed by `ParticleEmitter::emit` carries the Debris tag
regardless of the emitter's configured `particle_type`; the configured
`spread_angle` has no influence on the spawned particles (it is copied into
the `ParticleConfig` but never read by `Particle::new`); and
`Particle::update` never changes a particle's type tag, so the non-Debris
per-type update rules are never exercised by emitter-spawned particles. -/
theorem claim_C9_emitted_particles_debris :
    (∀ (config : ParticleConfig), (Particle.new config).particle_type = ParticleType.Debris) ∧
    (∀ (e : ParticleEmitter) (rnd : Vec3) (p : Particle),
        p ∈ (ParticleEmitter.emit rnd e).particles →
        p ∈ e.particles ∨ p.particle_type = ParticleType.Debris) ∧
    (∀ (e : ParticleEmitter) (rnd : Vec3) (a : ℚ),
        (ParticleEmitter.emit rnd { e with spread_angle := a }).particles =
          (ParticleEmitter.emit rnd e).particles) ∧
    (∀ (p : Particle) (dt : ℚ), (p.update dt).particle_type = p.particle_type) := by
  refine ⟨fun _ => rfl, ?_, ?_, fun p dt => Particle.update_particle_type dt p⟩
  · intro e rnd p hp
    unfold ParticleEmitter.emit at hp
    split at hp
    · exact Or.inl hp
    · rcases List.mem_append.mp hp with h | h
      · exact Or.inl h
      · right
        simp only [List.mem_singleton] at h
        subst h
        rfl
  · intro e rnd a
    unfold ParticleEmitter.emit ParticleEmitter.spawnPosition
    cases hpat : e.emission_pattern <;> simp [hpat, Particle.new] <;> split <;> rfl

/-- A Fire-configured emitter used to instantiate claim C9. -/
def fireEmitterExample : ParticleEmitter :=
  ParticleEmitterBuilder.build
    { ParticleEmitterBuilder.new with
        particle_type := ParticleType.Fire
        spread_angle := 45
        initial_velocity := 1
        particle_size := 1
        particle_lifetime := 1 }

/-- The particle the example Fire emitter spawns. -/
def fireSpawnExample : Particle :=
  Particle.new
    { position := Vec3.zero
      direction := Vec3.zero
      spread_angle := 45
      speed := 1
      size := 1
      color := Vec3.one
      particle_lifetime := 1 }

/-- Concrete instantiation of `claim_C9_emitted_particles_debris`: the
particle emitted by a Fire-type emitter is Debris. -/
theorem claim_C9_emitted_particles_debris_witness :
    (fireSpawnExample ∈ (ParticleEmitter.emit Vec3.zero fireEmitterExample).particles) ∧
    (fireSpawnExample ∈ fireEmitterExample.particles ∨
      fireSpawnExample.particle_type = ParticleType.Debris) :=
  have hmem : fireSpawnExample ∈ (ParticleEmitter.emit Vec3.zero fireEmitterExample).particles := by
    rw [show (ParticleEmitter.emit Vec3.zero fireEmitterExample).particles = [fireSpawnExample]
      from rfl]
    exact List.mem_singleton_self _
  ⟨hmem, claim_C9_emitted_particles_debris.2.1 fireEmitterExample Vec3.zero fireSpawnExample hmem⟩

/-! ## Claim C7: Ring emission cycles through count-many fixed angles -/

/-- The fixed spawn position of the `Ring` emission pattern for placement
index `k`: the emitter position offset by the point at angle
`k·TAU/count` on the radius-`radius` circle in the XZ plane (the formula of
the `Ring` arm of `ParticleEmitter::emit`). -/
def ringSpawn (center : Vec3) (radius : ℚ) (count : ℕ) (k : ℕ) : Vec3 :=
  center + (⟨cosQ ((k : ℚ) * tauQ / (count : ℚ)) * radius, 0,
            sinQ ((k : ℚ) * tauQ / (count : ℚ)) * radius⟩ : Vec3)

/-- Claim C7: with emission pattern `Ring{radius=5, count=4}` and a
non-full pool, `emit` appends exactly one particle, spawned at the fixed
ring position whose placement index is the pool length modulo 4 — so
successive emissions cycle deterministically through the four angles
`0·TAU/4`, `1·TAU/4`, `2·TAU/4`, `3·TAU/4` (0°, 90°, 180°, 270°) scaled by
radius 5 around the emitter position, the index `k % 4` always lying in
`{0,1,2,3}` and repeating with period 4 in the number of emitted
particles. -/
theorem claim_C7_ring_pattern_cycles :
    ∀ (e : ParticleEmitter) (rnd : Vec3),
      e.emission_pattern = EmissionPattern.Ring 5 4 →
      e.particles.length < 100 →
      (ParticleEmitter.emit rnd e).particles =
        e.particles ++ [Particle.new
          { position := ringSpawn e.position 5 4 (e.particles.length % 4)
            direction := e.direction
            spread_angle := e.spread_angle
            speed := e.initial_velocity
            size := e.particle_size
            color := Vec3.one
            particle_lifetime := e.particle_lifetime }] ∧
      e.particles.length % 4 < 4 ∧
      (e.particles.length + 4) % 4 = e.particles.length % 4 := by
  intro e rnd hpat hlen
  refine ⟨?_, Nat.mod_lt _ (by omega), by omega⟩
  unfold ParticleEmitter.emit
  rw [if_neg (by omega)]
  unfold ParticleEmitter.spawnPosition
  rw [hpat]
  rfl

/-- Concrete instantiation of `claim_C7_ring_pattern_cycles`: the first
emission of a fresh `Ring{5,4}` emitter (placement index 0). -/
theorem claim_C7_ring_pattern_cycles_witness :
    ((ParticleEmitterBuilder.build { ParticleEmitterBuilder.new with
        emission_pattern := EmissionPattern.Ring 5 4 }).emission_pattern =
      EmissionPattern.Ring 5 4 ∧
     (ParticleEmitterBuilder.build { ParticleEmitterBuilder.new with
        emission_pattern := EmissionPattern.Ring 5 4 }).particles.length < 100) ∧
    (ParticleEmitter.emit Vec3.zero
      (ParticleEmitterBuilder.build { ParticleEmitterBuilder.new with
        emission_pattern := EmissionPattern.Ring 5 4 })).particles =
      [Particle.new
        { position := ringSpawn Vec3.zero 5 4 0
          direction := Vec3.zero
          spread_angle := 0
          speed := 0
          size := 0
          color := Vec3.one
          particle_lifetime := 0 }] := by
  refine ⟨⟨by decide, by decide⟩, ?_⟩
  have h := (claim_C7_ring_pattern_cycles
    (ParticleEmitterBuilder.build { ParticleEmitterBuilder.new with
      emission_pattern := EmissionPattern.Ring 5 4 }) Vec3.zero (by decide) (by decide)).1
  simpa [ParticleEmitterBuilder.build] using h


/-! ## List and registry helper lemmas shared by the scene-graph claims -/

theorem listModify_length (l : List SceneObject) (i : ℕ) (f : SceneObject → SceneObject) :
    (listModify l i f).length = l.length := by
  unfold listModify
  split <;> simp

theorem getD_append_lt (l l2 : List SceneObject) (i : ℕ) (d : SceneObject)
    (h : i < l.length) : (l ++ l2).getD i d = l.getD i d := by
  simp [List.getD_eq_getElem?_getD, List.getElem?_append_left h]

theorem getD_append_length (l : List SceneObject) (x d : SceneObject) :
    (l ++ [x]).getD l.length d = x := by
  simp [List.getD_eq_getElem?_getD, List.getElem?_append_right (le_refl l.length)]

theorem listModify_getD_self (l : List SceneObject) (i : ℕ) (f : SceneObject → SceneObject)
    (d : SceneObject) (h : i < l.length) :
    (listModify l i f).getD i d = f (l.getD i d) := by
  unfold listModify
  rw [List.get?_eq_getElem?, List.getElem?_eq_getElem h]
  simp [List.getD_eq_getElem?_getD, List.getElem?_set_self h, List.getElem?_eq_getElem h]

theorem listModify_getD_ne (l : List SceneObject) (i j : ℕ) (f : SceneObject → SceneObject)
    (d : SceneObject) (h : j ≠ i) : (listModify l i f).getD j d = l.getD j d := by
  unfold listModify
  split
  · simp [List.getD_eq_getElem?_getD, List.getElem?_set_ne (fun he => h he.symm)]
  · rfl

theorem mapLookup_insert_self (k : String) (v : ℕ) (m : List (String × ℕ)) :
    mapLookup (mapInsert k v m) k = some v := by
  simp [mapLookup, mapInsert, List.find?]

/-! ## Claim C10: add_light is inert until a slot is freed -/

/-- If no slot position is `Vec3::ZERO`, the replacement loop of
`add_light` finds nothing. -/
theorem replaceFirstFreeSlot_eq_none (ls : List Light) (light : Light)
    (h : ∀ l ∈ ls, l.position ≠ Vec3.zero) : replaceFirstFreeSlot ls light = none := by
  induction ls with
  | nil => rfl
  | cons l rest ih =>
      unfold replaceFirstFreeSlot
      rw [if_neg (h l (List.mem_cons_self _ _)),
        ih (fun x hx => h x (List.mem_cons_of_mem _ hx))]
      rfl

/-- On a manager none of whose slots sit at the origin, `add_light` returns
`false` and leaves the manager unchanged. -/
theorem LightManager.add_light_no_free_slot (m : LightManager) (light : Light)
    (h : ∀ l ∈ m.lighting_ubo.lights, l.position ≠ Vec3.zero) :
    m.add_light light = (false, m) := by
  unfold LightManager.add_light
  split
  · rfl
  · rw [replaceFirstFreeSlot_eq_none _ _ h]

/-- Claim C10: on a freshly constructed `LightManager` (or `Scene`), whose
four pre-populated slots all have nonzero positions, every `add_light` call
returns `false` and leaves the state untouched until `clear_lights` or
`remove_light` first zeroes a slot — `add_light` only writes into a slot
whose position equals `Vec3::ZERO`; moreover no light whose position is
exactly `Vec3::ZERO` can ever be stored through `add_light`, on any manager
state: either some slot already sits at the origin (and the
duplicate-position guard rejects the call) or no slot is free. -/
theorem claim_C10_add_light_inert :
    (∀ ls : List Light, (LightManager.new.addLights ls).1.all (fun b => b = false) ∧
        (LightManager.new.addLights ls).2 = LightManager.new) ∧
    (∀ (m : LightManager) (light : Light), light.position = Vec3.zero →
        (m.add_light light).1 = false) ∧
    (∀ light : Light, (Scene.new.add_light light).1 = false ∧
        (Scene.new.add_light light).2 = Scene.new) := by
  have hfresh : ∀ l ∈ LightManager.new.lighting_ubo.lights, l.position ≠ Vec3.zero := by
    decide
  have hstep : ∀ light : Light, LightManager.new.add_light light = (false, LightManager.new) :=
    fun light => LightManager.add_light_no_free_slot _ light hfresh
  refine ⟨?_, ?_, ?_⟩
  · intro ls
    induction ls with
    | nil => exact ⟨rfl, rfl⟩
    | cons light rest ih =>
        unfold LightManager.addLights
        rw [hstep light]
        simpa using ih
  · intro m light hz
    unfold LightManager.add_light
    split
    · rfl
    · rename_i hany
      have hne : ∀ l ∈ m.lighting_ubo.lights, l.position ≠ Vec3.zero := by
        intro l hl hzl
        exact hany (List.any_eq_true.mpr ⟨l, hl, by simp [hzl, hz]⟩)
      rw [replaceFirstFreeSlot_eq_none _ _ hne]
  · intro light
    unfold Scene.add_light
    rw [show Scene.new.light_manager = LightManager.new from rfl, hstep light]
    exact ⟨rfl, rfl⟩

/-- Concrete instantiation of `claim_C10_add_light_inert`: two adds on the
fresh manager both fail and change nothing, and an origin-positioned light
is rejected even on a cleared manager. -/
theorem claim_C10_add_light_inert_witness :
    ((LightManager.new.addLights
        [⟨⟨9, 9, 9⟩, Vec3.one, 1⟩, ⟨⟨1, 1, 1⟩, Vec3.one, 1⟩]).1.all (fun b => b = false) ∧
      (LightManager.new.addLights
        [⟨⟨9, 9, 9⟩, Vec3.one, 1⟩, ⟨⟨1, 1, 1⟩, Vec3.one, 1⟩]).2 = LightManager.new) ∧
    ((⟨Vec3.zero, Vec3.one, 1⟩ : Light).position = Vec3.zero ∧
      ((LightManager.new.clear_lights).add_light ⟨Vec3.zero, Vec3.one, 1⟩).1 = false) :=
  ⟨claim_C10_add_light_inert.1 _,
    ⟨rfl, claim_C10_add_light_inert.2.1 LightManager.new.clear_lights _ rfl⟩⟩

/-! ## Claim C8: add_object error handling and linking -/

/-- Claim C8: `Scene::add_object` with a parent name absent from the
registry returns the NotFound-style `anyhow::bail!` failure result (the
Rust method bails before touching any scene state, so the scene is left
unchanged; the functional embedding accordingly produces no scene on the
error path); with no parent it succeeds, appends the object to the flat
storage, pushes its id onto the root list and registers the name; with a
registered parent it succeeds, appends the object carrying the parent
back-reference, pushes its id onto the parent's children list, registers
the name and leaves the root list untouched. -/
theorem claim_C8_add_object_not_found :
    (∀ (s : Scene) (name : String) (t : Transform) (mo : Option Model) (mat : Material)
        (pname : String), mapLookup s.object_map pname = none →
        Scene.add_object name t mo mat (some pname) s =
          Except.error ("Parent object " ++ pname ++ " not found")) ∧
    (∀ (s : Scene) (name : String) (t : Transform) (mo : Option Model) (mat : Material),
        Scene.add_object name t mo mat none s =
          Except.ok (s.objects.length,
            { s with objects := s.objects ++ [SceneObject.new name t mo mat]
                     object_map := mapInsert name s.objects.length s.object_map
                     root_objects := s.root_objects ++ [s.objects.length] })) ∧
    (∀ (s : Scene) (name : String) (t : Transform) (mo : Option Model) (mat : Material)
        (pname : String) (pid : ℕ), mapLookup s.object_map pname = some pid →
        ∃ s2, Scene.add_object name t mo mat (some pname) s =
            Except.ok (s.objects.length, s2) ∧
          s2.objects.length = s.objects.length + 1 ∧
          mapLookup s2.object_map name = some s.objects.length ∧
          (s2.obj s.objects.length).parent = some pid ∧
          (s2.obj s.objects.length).name = name ∧
          (pid < s.objects.length → s.objects.length ∈ (s2.obj pid).children) ∧
          s2.root_objects = s.root_objects) := by
  refine ⟨?_, ?_, ?_⟩
  · intro s name t mo mat pname h
    simp only [Scene.add_object, h]
  · intro s name t mo mat
    rfl
  · intro s name t mo mat pname pid h
    refine ⟨{ s with
        objects := listModify s.objects pid
            (fun o => { o with children := o.children ++ [s.objects.length] }) ++
          [{ SceneObject.new name t mo mat with parent := some pid }]
        object_map := mapInsert name s.objects.length s.object_map },
      by simp only [Scene.add_object, h], ?_, ?_, ?_, ?_, ?_, rfl⟩
    · simp [listModify_length]
    · exact mapLookup_insert_self _ _ _
    · have := getD_append_length
        (listModify s.objects pid
          (fun o => { o with children := o.children ++ [s.objects.length] }))
        { SceneObject.new name t mo mat with parent := some pid } default
      rw [listModify_length] at this
      simp only [Scene.obj, this]
    · have := getD_append_length
        (listModify s.objects pid
          (fun o => { o with children := o.children ++ [s.objects.length] }))
        { SceneObject.new name t mo mat with parent := some pid } default
      rw [listModify_length] at this
      simp only [Scene.obj, this]
      rfl
    · intro hpid
      have h1 : (listModify s.objects pid
            (fun o => { o with children := o.children ++ [s.objects.length] }) ++
          [{ SceneObject.new name t mo mat with parent := some pid }]).getD pid default =
          (listModify s.objects pid
            (fun o => { o with children := o.children ++ [s.objects.length] })).getD pid
            default := by
        apply getD_append_lt
        rwa [listModify_length]
      simp only [Scene.obj, h1, listModify_getD_self _ _ _ _ hpid]
      simp

/-! ## Concrete scenes shared by the scene-graph claims -/

/-- A placeholder material for the concrete scenes (its value is irrelevant
to every property proved about them). -/
def zeroMaterial : Material := ⟨Vec3.zero, Vec3.zero, Vec3.zero, 0⟩

/-- A pure translation: identity rotation, unit scale. -/
def translationTransform (v : Vec3) : Transform :=
  { Transform.default with position := v }

/-- The scene obtained by adding object `A` as a root and then `B` with
parent `A` (see `claim_C1_remove_object_consistent` for the proof that the
two `add_object` calls produce exactly this value). -/
def sceneAB : Scene :=
  { objects :=
      [{ SceneObject.new "A" (translationTransform ⟨1, 0, 0⟩) none zeroMaterial with
          children := [1] },
       { SceneObject.new "B" (translationTransform ⟨0, 1, 0⟩) none zeroMaterial with
          parent := some 0 }]
    object_map := [("B", 1), ("A", 0)]
    light_manager := LightManager.new
    root_objects := [0] }

/-- Building the three-node chain root→child→grandchild of claim C4 with the
pure translations (1,0,0), (0,1,0), (0,0,1) and returning the world
matrices computed by `update_transforms` together with the grandchild's
`world_matrix`. -/
def chainTransformsComputed : Except String (List (ℕ × Mat4) × Mat4) := do
  let r1 ← Scene.add_object "root" (translationTransform ⟨1, 0, 0⟩) none zeroMaterial
    none Scene.new
  let r2 ← Scene.add_object "child" (translationTransform ⟨0, 1, 0⟩) none zeroMaterial
    (some "root") r1.2
  let r3 ← Scene.add_object "grandchild" (translationTransform ⟨0, 0, 1⟩) none zeroMaterial
    (some "child") r2.2
  pure (r3.2.update_transforms, (r3.2.obj r3.1).world_matrix r3.2)

/-! ## Claim C4: hierarchical transform propagation on the chain -/

/-- Claim C4: on the scene holding the chain root→child→grandchild whose
local transforms are the pure translations (1,0,0), (0,1,0), (0,0,1),
`update_transforms` computes (starting from the identity matrix at the
root) each node's world matrix as parent-world times local, assigning the
grandchild the translation (1,1,1) — its world position — and
`SceneObject::world_matrix` computes the same matrix for the grandchild. -/
theorem claim_C4_chain_world_position :
    chainTransformsComputed =
      Except.ok
        ([(0, ⟨⟨1, 0, 0, 0⟩, ⟨0, 1, 0, 0⟩, ⟨0, 0, 1, 0⟩, ⟨1, 0, 0, 1⟩⟩),
          (1, ⟨⟨1, 0, 0, 0⟩, ⟨0, 1, 0, 0⟩, ⟨0, 0, 1, 0⟩, ⟨1, 1, 0, 1⟩⟩),
          (2, ⟨⟨1, 0, 0, 0⟩, ⟨0, 1, 0, 0⟩, ⟨0, 0, 1, 0⟩, ⟨1, 1, 1, 1⟩⟩)],
         ⟨⟨1, 0, 0, 0⟩, ⟨0, 1, 0, 0⟩, ⟨0, 0, 1, 0⟩, ⟨1, 1, 1, 1⟩⟩) := by rfl

/-! ## Claim C8 witness -/

/-- Concrete instantiation of `claim_C8_add_object_not_found` on `sceneAB`:
an absent parent name fails with the NotFound error, and adding under the
registered parent `A` succeeds with the stated linking. -/
theorem claim_C8_add_object_not_found_witness :
    (mapLookup sceneAB.object_map "missing" = none ∧
      Scene.add_object "C" Transform.default none zeroMaterial (some "missing") sceneAB =
        Except.error ("Parent object " ++ "missing" ++ " not found")) ∧
    (mapLookup sceneAB.object_map "A" = some 0 ∧
      ∃ s2, Scene.add_object "C" Transform.default none zeroMaterial (some "A") sceneAB =
          Except.ok (sceneAB.objects.length, s2) ∧
        s2.objects.length = sceneAB.objects.length + 1 ∧
        mapLookup s2.object_map "C" = some sceneAB.objects.length ∧
        (s2.obj sceneAB.objects.length).parent = some 0 ∧
        (s2.obj sceneAB.objects.length).name = "C" ∧
        (0 < sceneAB.objects.length → sceneAB.objects.length ∈ (s2.obj 0).children) ∧
        s2.root_objects = sceneAB.root_objects) :=
  ⟨⟨by decide,
      claim_C8_add_object_not_found.1 sceneAB "C" Transform.default none zeroMaterial
        "missing" (by decide)⟩,
    ⟨by decide,
      claim_C8_add_object_not_found.2.2 sceneAB "C" Transform.default none zeroMaterial
        "A" 0 (by decide)⟩⟩

/-! ## Claim C5: the loop_path flag of PathFollowBehavior is dead -/

/-- The failing input for claim C5: a two-waypoint open path with the query
position sitting on the last waypoint. -/
def pathFollowCounterexample : PathFollowBehavior :=
  { path := [⟨0, 0, 0⟩, ⟨10, 0, 0⟩]
    loop_path := false
    path_radius := 1
    look_ahead := 1
    arrival_threshold := 1 }

/-- Claim C5 evaluation: because `look_ahead_index = (target_index + 1) %
path.len()` is always in bounds, `loop_path` has no influence whatsoever on
`PathFollowBehavior::calculate_force` (first conjunct), and on the concrete
open path `[(0,0,0), (10,0,0)]` with the query position at the last
waypoint and `loop_path = false` the function returns the wrapped-pursuit
force `(-1, 0, 0)` instead of the zero vector that the claim (and the dead
`else` branches of the source) prescribe. -/
theorem claim_C5_loop_path_flag_dead :
    (∀ (b : PathFollowBehavior) (pos vel : Vec3) (flag : Bool),
        PathFollowBehavior.calculate_force { b with loop_path := flag } pos vel =
          b.calculate_force pos vel) ∧
    pathFollowCounterexample.loop_path = false ∧
    pathFollowCounterexample.calculate_force ⟨10, 0, 0⟩ Vec3.zero = ⟨-1, 0, 0⟩ ∧
    ((⟨-1, 0, 0⟩ : Vec3) ≠ Vec3.zero) := by
  refine ⟨?_, by decide, by decide, by decide⟩
  intro b pos vel flag
  unfold PathFollowBehavior.calculate_force
  by_cases hemp : b.path.isEmpty
  · simp [hemp]
  · have hlen : 0 < b.path.length := by
      cases hp : b.path with
      | nil => rw [hp] at hemp; exact absurd rfl hemp
      | cons _ _ => simp [hp]
    simp only [hemp, Bool.false_eq_true, if_false]
    rw [if_pos (Nat.mod_lt _ hlen), if_pos (Nat.mod_lt _ hlen)]

/-! ## Claim C1: the registered subtree and the scene well-formedness
invariant -/

/-- The value list of the modelled registry. -/
def mapValues (m : List (String × ℕ)) : List ℕ := m.map (fun p => p.2)

/-- Fuel-indexed subtree of object ids reachable from `id` through the
`children` lists (the node itself first, then the children subtrees in
order); with fuel `0` the children are cut off. -/
def subtreeFuel (s : Scene) : ℕ → ℕ → List ℕ
  | 0, id => [id]
  | fuel + 1, id => id :: (s.obj id).children.flatMap (fun c => subtreeFuel s fuel c)

/-- The subtree of `id` (the node and all of its descendants) with the fuel
that saturates on every scene whose children lists are index-monotone. -/
def Scene.subtree (s : Scene) (id : ℕ) : List ℕ :=
  subtreeFuel s (s.objects.length + 1) id

/-- The number of descendants (the `K` of claim C1) of a registered id. -/
def Scene.descendantCount (s : Scene) (id : ℕ) : ℕ := (s.subtree id).length - 1

/-- The registry half of the scene invariant: distinct names, distinct ids,
ids in range of the flat storage, and each entry's id naming an object that
carries the entry's name. -/
@[reducible] def MapInv (s : Scene) : Prop :=
  (s.object_map.map (fun p => p.1)).Nodup ∧
  (mapValues s.object_map).Nodup ∧
  (∀ p ∈ s.object_map, p.2 < s.objects.length ∧ (s.obj p.2).name = p.1)

/-- Children lists only point forward (a child's index exceeds its
parent's) and stay inside the flat storage — true of every scene reachable
through `add_object`/`remove_object`, since `add_object` links a fresh
maximal index under an existing parent and removal only shrinks children
lists. -/
@[reducible] def ChildMono (s : Scene) : Prop :=
  ∀ d, d < s.objects.length → ∀ c ∈ (s.obj d).children, d < c ∧ c < s.objects.length

/-- The full scene well-formedness invariant of the data model: the registry
invariant, monotone children, and the mutual consistency of the registry,
the root list and the parent/children links. -/
@[reducible] def TreeInv (s : Scene) : Prop :=
  MapInv s ∧ ChildMono s ∧
  s.root_objects.Nodup ∧
  (∀ r ∈ s.root_objects, r ∈ mapValues s.object_map ∧ (s.obj r).parent = none) ∧
  (∀ id ∈ mapValues s.object_map, (s.obj id).parent = none → id ∈ s.root_objects) ∧
  (∀ id ∈ mapValues s.object_map, (s.obj id).children.Nodup ∧
    ∀ c ∈ (s.obj id).children, c ∈ mapValues s.object_map ∧ (s.obj c).parent = some id) ∧
  (∀ id ∈ mapValues s.object_map, ∀ pid ∈ ((s.obj id).parent).toList,
    pid ∈ mapValues s.object_map ∧ id ∈ (s.obj pid).children ∧ pid < id)

/-- Out-of-range ids have the default (childless) object. -/
theorem Scene.obj_oob (s : Scene) (i : ℕ) (h : s.objects.length ≤ i) :
    s.obj i = default := by
  unfold Scene.obj
  rw [List.getD_eq_getElem?_getD, List.getElem?_eq_none h]
  rfl

theorem subtreeFuel_oob (s : Scene) (fuel id : ℕ) (h : s.objects.length ≤ id) :
    subtreeFuel s fuel id = [id] := by
  cases fuel with
  | zero => rfl
  | succ n =>
      unfold subtreeFuel
      rw [Scene.obj_oob s id h]
      rfl

/-- Subtree members never precede the subtree root. -/
theorem subtreeFuel_ge (s : Scene) (hm : ChildMono s) :
    ∀ (fuel id : ℕ), ∀ d ∈ subtreeFuel s fuel id, id ≤ d := by
  intro fuel
  induction fuel with
  | zero =>
      intro id d hd
      unfold subtreeFuel at hd
      simp only [List.mem_singleton] at hd
      omega
  | succ n ih =>
      intro id d hd
      unfold subtreeFuel at hd
      rcases List.mem_cons.mp hd with h | h
      · omega
      · rcases List.mem_flatMap.mp h with ⟨c, hc, hdc⟩
        by_cases hid : id < s.objects.length
        · have := (hm id hid c hc).1
          have := ih c d hdc
          omega
        · rw [Scene.obj_oob s id (by omega)] at hc
          exact absurd hc (List.not_mem_nil _)

/-- With enough fuel the subtree computation saturates. -/
theorem subtreeFuel_stable (s : Scene) (hm : ChildMono s) :
    ∀ (f1 : ℕ), ∀ (f2 id : ℕ), s.objects.length - id ≤ f1 → s.objects.length - id ≤ f2 →
      subtreeFuel s f1 id = subtreeFuel s f2 id := by
  intro f1
  induction f1 with
  | zero =>
      intro f2 id h1 _h2
      rw [subtreeFuel_oob s 0 id (by omega), subtreeFuel_oob s f2 id (by omega)]
  | succ n ih =>
      intro f2 id h1 h2
      by_cases hid : id < s.objects.length
      · cases f2 with
        | zero => omega
        | succ m =>
            unfold subtreeFuel
            congr 1
            apply List.flatMap_congr
            intro c hc
            have hcm := hm id hid c hc
            exact ih m c (by omega) (by omega)
      · rw [subtreeFuel_oob s _ id (by omega), subtreeFuel_oob s f2 id (by omega)]

/-- Canonical unfolding of `Scene.subtree` on monotone scenes. -/
theorem Scene.subtree_unfold (s : Scene) (hm : ChildMono s) (id : ℕ) :
    s.subtree id = id :: (s.obj id).children.flatMap (fun c => s.subtree c) := by
  unfold Scene.subtree
  rw [show s.objects.length + 1 = s.objects.length + 1 from rfl]
  unfold subtreeFuel
  congr 1
  apply List.flatMap_congr
  intro c hc
  by_cases hid : id < s.objects.length
  · have := hm id hid c hc
    exact subtreeFuel_stable s hm s.objects.length (s.objects.length + 1) c (by omega) (by omega)
  · rw [Scene.obj_oob s id (by omega)] at hc
    exact absurd hc (List.not_mem_nil _)

theorem Scene.subtree_self_mem (s : Scene) (id : ℕ) : id ∈ s.subtree id := by
  unfold Scene.subtree subtreeFuel
  exact List.mem_cons_self _ _

theorem Scene.subtree_ge (s : Scene) (hm : ChildMono s) (id : ℕ) :
    ∀ d ∈ s.subtree id, id ≤ d :=
  fun d hd => subtreeFuel_ge s hm _ id d hd

/-- Membership of a child subtree propagates into the parent subtree. -/
theorem Scene.subtree_mem_of_child (s : Scene) (hm : ChildMono s) {id c d : ℕ}
    (hc : c ∈ (s.obj id).children) (hd : d ∈ s.subtree c) : d ∈ s.subtree id := by
  rw [Scene.subtree_unfold s hm id]
  exact List.mem_cons_of_mem _ (List.mem_flatMap.mpr ⟨c, hc, hd⟩)

/-- Elimination: a subtree member is the root or sits in a child subtree. -/
theorem Scene.subtree_cases (s : Scene) (hm : ChildMono s) {id d : ℕ}
    (hd : d ∈ s.subtree id) :
    d = id ∨ ∃ c ∈ (s.obj id).children, d ∈ s.subtree c := by
  rw [Scene.subtree_unfold s hm id] at hd
  rcases List.mem_cons.mp hd with h | h
  · exact Or.inl h
  · rcases List.mem_flatMap.mp h with ⟨c, hc, hdc⟩
    exact Or.inr ⟨c, hc, hdc⟩

/-- Two scenes of the same storage length whose children lists agree on a
subtree compute the same subtree. -/
theorem subtreeFuel_congr (s s2 : Scene) :
    ∀ (fuel id : ℕ), (∀ d ∈ subtreeFuel s fuel id, (s2.obj d).children = (s.obj d).children) →
      subtreeFuel s2 fuel id = subtreeFuel s fuel id := by
  intro fuel
  induction fuel with
  | zero => intro id _; rfl
  | succ n ih =>
      intro id h
      unfold subtreeFuel
      have hid : (s2.obj id).children = (s.obj id).children :=
        h id (by unfold subtreeFuel; exact List.mem_cons_self _ _)
      rw [hid]
      congr 1
      apply List.flatMap_congr
      intro c hc
      apply ih
      intro d hd
      apply h
      unfold subtreeFuel
      exact List.mem_cons_of_mem _ (List.mem_flatMap.mpr ⟨c, hc, hd⟩)

theorem Scene.subtree_congr (s s2 : Scene) (hlen : s2.objects.length = s.objects.length)
    (id : ℕ) (h : ∀ d ∈ s.subtree id, (s2.obj d).children = (s.obj d).children) :
    s2.subtree id = s.subtree id := by
  unfold Scene.subtree
  rw [hlen]
  exact subtreeFuel_congr s s2 _ id h

/-- Subtrees are closed under taking children. -/
theorem Scene.subtree_closed (s : Scene) (hm : ChildMono s) :
    ∀ (n id : ℕ), s.objects.length - id < n →
      ∀ d ∈ s.subtree id, ∀ c ∈ (s.obj d).children, c ∈ s.subtree id := by
  intro n
  induction n with
  | zero => omega
  | succ n ih =>
      intro id hn d hd c hc
      rcases Scene.subtree_cases s hm hd with rfl | ⟨c0, hc0, hdc0⟩
      · exact Scene.subtree_mem_of_child s hm hc (Scene.subtree_self_mem s c)
      · by_cases hid : id < s.objects.length
        · have h1 := hm id hid c0 hc0
          have h2 : c ∈ s.subtree c0 := ih c0 (by omega) d hdc0 c hc
          exact Scene.subtree_mem_of_child s hm hc0 h2
        · rw [Scene.obj_oob s id (by omega)] at hc0
          exact absurd hc0 (List.not_mem_nil _)

/-- On a subtree whose members' children carry correct parent
back-references, every member other than the root has its parent inside the
subtree. -/
theorem Scene.subtree_parent (s : Scene) (hm : ChildMono s) :
    ∀ (n id : ℕ), s.objects.length - id < n →
      (∀ d ∈ s.subtree id, ∀ c ∈ (s.obj d).children, (s.obj c).parent = some d) →
      ∀ m ∈ s.subtree id, m ≠ id →
        ∃ pm, (s.obj m).parent = some pm ∧ pm ∈ s.subtree id ∧ m ∈ (s.obj pm).children := by
  intro n
  induction n with
  | zero => omega
  | succ n ih =>
      intro id hn hpp m hm2 hne
      rcases Scene.subtree_cases s hm hm2 with rfl | ⟨c0, hc0, hmc0⟩
      · exact absurd rfl hne
      · by_cases hid : id < s.objects.length
        · have h1 := hm id hid c0 hc0
          by_cases hmc : m = c0
          · subst hmc
            exact ⟨id, hpp id (Scene.subtree_self_mem s id) m hc0,
              Scene.subtree_self_mem s id, hc0⟩
          · have hsub : ∀ d ∈ s.subtree c0, ∀ c ∈ (s.obj d).children,
                (s.obj c).parent = some d :=
              fun d hd c hc => hpp d (Scene.subtree_mem_of_child s hm hc0 hd) c hc
            obtain ⟨pm, hpm, hpmsub, hpmc⟩ := ih c0 (by omega) hsub m hmc0 hmc
            exact ⟨pm, hpm, Scene.subtree_mem_of_child s hm hc0 hpmsub, hpmc⟩
        · rw [Scene.obj_oob s id (by omega)] at hc0
          exact absurd hc0 (List.not_mem_nil _)

/-- Subtrees of two distinct children of the same parent are disjoint (the
parent back-references identify each member's unique attachment point). -/
theorem Scene.subtree_sibling_disjoint (s : Scene) (hm : ChildMono s)
    {c1 c2 pid : ℕ} (hp1 : (s.obj c1).parent = some pid) (hp2 : (s.obj c2).parent = some pid)
    (hlt1 : pid < c1) (hlt2 : pid < c2) (hne : c1 ≠ c2)
    (hpp1 : ∀ d ∈ s.subtree c1, ∀ c ∈ (s.obj d).children, (s.obj c).parent = some d)
    (hpp2 : ∀ d ∈ s.subtree c2, ∀ c ∈ (s.obj d).children, (s.obj c).parent = some d) :
    ∀ m, m ∈ s.subtree c1 → m ∈ s.subtree c2 → False := by
  have key : ∀ (n m : ℕ), m < n → m ∈ s.subtree c1 → m ∈ s.subtree c2 → False := by
    intro n
    induction n with
    | zero => omega
    | succ n ih =>
        intro m hmn hm1 hm2
        by_cases he1 : m = c1
        · subst he1
          obtain ⟨pm, hpm, hpmsub, _⟩ :=
            Scene.subtree_parent s hm (s.objects.length - c2 + 1) c2 (by omega) hpp2 m hm2 hne
          rw [hp1] at hpm
          injection hpm with hq
          have : c2 ≤ pm := Scene.subtree_ge s hm c2 pm hpmsub
          omega
        · by_cases he2 : m = c2
          · subst he2
            obtain ⟨pm, hpm, hpmsub, _⟩ :=
              Scene.subtree_parent s hm (s.objects.length - c1 + 1) c1 (by omega) hpp1 m hm1
                (fun h => hne h.symm)
            rw [hp2] at hpm
            injection hpm with hq
            have : c1 ≤ pm := Scene.subtree_ge s hm c1 pm hpmsub
            omega
          · obtain ⟨pm1, hpm1, hpm1sub, hpm1c⟩ :=
              Scene.subtree_parent s hm (s.objects.length - c1 + 1) c1 (by omega) hpp1 m hm1 he1
            obtain ⟨pm2, hpm2, hpm2sub, _⟩ :=
              Scene.subtree_parent s hm (s.objects.length - c2 + 1) c2 (by omega) hpp2 m hm2 he2
            rw [hpm1] at hpm2
            injection hpm2 with hq
            subst hq
            have hpmlen : pm1 < s.objects.length := by
              by_contra hge
              rw [Scene.obj_oob s pm1 (by omega)] at hpm1c
              exact absurd hpm1c (List.not_mem_nil _)
            have : pm1 < m := (hm pm1 hpmlen m hpm1c).1
            exact ih pm1 (by omega) hpm1sub hpm2sub
  exact fun m => key (m + 1) m (by omega)

/-- A subtree whose members have duplicate-free children lists with correct
parent back-references is itself duplicate-free. -/
theorem Scene.subtree_nodup (s : Scene) (hm : ChildMono s) :
    ∀ (n id : ℕ), s.objects.length - id < n →
      (∀ d ∈ s.subtree id, (s.obj d).children.Nodup ∧
        ∀ c ∈ (s.obj d).children, (s.obj c).parent = some d) →
      (s.subtree id).Nodup := by
  intro n
  induction n with
  | zero => omega
  | succ n ih =>
      intro id hn hh
      rw [Scene.subtree_unfold s hm id]
      by_cases hlen : id < s.objects.length
      · refine List.Nodup.cons ?_ ?_
        · intro hmem
          rcases List.mem_flatMap.mp hmem with ⟨c, hc, hidc⟩
          have h1 := (hm id hlen c hc).1
          have h2 := Scene.subtree_ge s hm c id hidc
          omega
        · rw [List.nodup_flatMap]
          constructor
          · intro c hc
            have h1 := hm id hlen c hc
            apply ih c (by omega)
            intro d hd
            exact hh d (Scene.subtree_mem_of_child s hm hc hd)
          · have hcn : (s.obj id).children.Nodup :=
              (hh id (Scene.subtree_self_mem s id)).1
            refine List.Pairwise.imp_of_mem ?_ hcn
            intro a b ha hb hab
            intro m hm1 hm2
            refine Scene.subtree_sibling_disjoint s hm
              ((hh id (Scene.subtree_self_mem s id)).2 a ha)
              ((hh id (Scene.subtree_self_mem s id)).2 b hb)
              (hm id hlen a ha).1 (hm id hlen b hb).1 hab ?_ ?_ m hm1 hm2
            · intro d hd c hc
              exact (hh d (Scene.subtree_mem_of_child s hm ha hd)).2 c hc
            · intro d hd c hc
              exact (hh d (Scene.subtree_mem_of_child s hm hb hd)).2 c hc
      · rw [Scene.obj_oob s id (by omega)]
        simp [show (default : SceneObject).children = [] from rfl]

/-! ## Registry lookup lemmas -/

theorem mapLookup_mem {m : List (String × ℕ)} {k : String} {v : ℕ}
    (h : mapLookup m k = some v) : (k, v) ∈ m := by
  unfold mapLookup at h
  cases hf : m.find? (fun p => p.1 == k) with
  | none => rw [hf] at h; simp at h
  | some p =>
      rw [hf] at h
      have hp := List.find?_some hf
      have hmem := List.mem_of_find?_eq_some hf
      simp only [Option.map] at h
      injection h with h
      have : p.1 = k := by simpa using hp
      rw [← h, ← this]
      exact hmem

theorem mem_mapLookup {m : List (String × ℕ)} {k : String} {v : ℕ}
    (kn : (m.map (fun p => p.1)).Nodup) (h : (k, v) ∈ m) : mapLookup m k = some v := by
  induction m with
  | nil => exact absurd h (List.not_mem_nil _)
  | cons p rest ih =>
      rcases List.mem_cons.mp h with rfl | hmem
      · unfold mapLookup
        simp [List.find?]
      · unfold mapLookup
        have hk : ¬(p.1 == k) = true := by
          simp only [List.map_cons, List.nodup_cons] at kn
          intro hbeq
          apply kn.1
          have : p.1 = k := by simpa using hbeq
          rw [this]
          exact List.mem_map.mpr ⟨(k, v), hmem, rfl⟩
        rw [List.find?]
        rw [Bool.not_eq_true] at hk
        rw [hk]
        have := ih (by simp only [List.map_cons, List.nodup_cons] at kn; exact kn.2) hmem
        exact this

theorem reverseLookup_mem {m : List (String × ℕ)} {id : ℕ} {k : String}
    (h : reverseLookup m id = some k) : (k, id) ∈ m := by
  unfold reverseLookup at h
  cases hf : m.find? (fun p => p.2 == id) with
  | none => rw [hf] at h; simp at h
  | some p =>
      rw [hf] at h
      have hp := List.find?_some hf
      have hmem := List.mem_of_find?_eq_some hf
      simp only [Option.map] at h
      injection h with h
      have : p.2 = id := by simpa using hp
      rw [← h, ← this]
      exact hmem

theorem mem_reverseLookup {m : List (String × ℕ)} {k : String} {id : ℕ}
    (vn : (mapValues m).Nodup) (h : (k, id) ∈ m) : reverseLookup m id = some k := by
  induction m with
  | nil => exact absurd h (List.not_mem_nil _)
  | cons p rest ih =>
      rcases List.mem_cons.mp h with rfl | hmem
      · unfold reverseLookup
        simp [List.find?]
      · unfold reverseLookup
        have hk : ¬(p.2 == id) = true := by
          simp only [mapValues, List.map_cons, List.nodup_cons] at vn
          intro hbeq
          apply vn.1
          have : p.2 = id := by simpa using hbeq
          rw [this]
          exact List.mem_map.mpr ⟨(k, id), hmem, rfl⟩
        rw [List.find?]
        rw [Bool.not_eq_true] at hk
        rw [hk]
        have := ih (by simp only [mapValues, List.map_cons, List.nodup_cons] at vn; exact vn.2)
          hmem
        exact this

theorem mem_mapValues {m : List (String × ℕ)} {id : ℕ} :
    id ∈ mapValues m ↔ ∃ k, (k, id) ∈ m := by
  unfold mapValues
  constructor
  · intro h
    rcases List.mem_map.mp h with ⟨p, hp, he⟩
    exact ⟨p.1, by rwa [show (p.1, id) = p from by rw [← he]]⟩
  · intro ⟨k, hk⟩
    exact List.mem_map.mpr ⟨(k, id), hk, rfl⟩

/-! ## Helpers for the removal proof -/

theorem keys_nodup_inj {m : List (String × ℕ)} {k : String} {v1 v2 : ℕ}
    (kn : (m.map (fun p => p.1)).Nodup) (h1 : (k, v1) ∈ m) (h2 : (k, v2) ∈ m) : v1 = v2 := by
  have e1 := mem_mapLookup kn h1
  have e2 := mem_mapLookup kn h2
  rw [e1] at e2
  injection e2

theorem values_nodup_inj {m : List (String × ℕ)} {k1 k2 : String} {v : ℕ}
    (vn : (mapValues m).Nodup) (h1 : (k1, v) ∈ m) (h2 : (k2, v) ∈ m) : k1 = k2 := by
  have e1 := mem_reverseLookup vn h1
  have e2 := mem_reverseLookup vn h2
  rw [e1] at e2
  injection e2

theorem SceneObject.eta_children {o : SceneObject} (h : o.children = []) :
    ({ o with children := [] } : SceneObject) = o := by
  cases o
  simp_all

/-- The conditions `remove_object` needs on every member of the subtree it
is about to delete: in range, registered, duplicate-free children, correct
parent back-references.  For a registered target these all follow from
`TreeInv`; they are phrased locally because during the recursion the target
has already been unlinked from its parent, so the global invariant is
momentarily broken at the target. -/
def SubtreeHealthy (s : Scene) (id : ℕ) : Prop :=
  ∀ d ∈ s.subtree id, d < s.objects.length ∧ d ∈ mapValues s.object_map ∧
    (s.obj d).children.Nodup ∧ (∀ c ∈ (s.obj d).children, (s.obj c).parent = some d)

theorem ChildMono.of_sub (s s2 : Scene) (hlen : s2.objects.length = s.objects.length)
    (hsub : ∀ j, ∀ c ∈ (s2.obj j).children, c ∈ (s.obj j).children) (hm : ChildMono s) :
    ChildMono s2 := by
  intro d hd c hc
  rw [hlen] at hd ⊢
  exact hm d hd c (hsub d c hc)

theorem MapInv.of_filter (s s2 : Scene) (hlen : s2.objects.length = s.objects.length)
    (hname : ∀ j, (s2.obj j).name = (s.obj j).name)
    (q : String × ℕ → Bool) (hmap : s2.object_map = s.object_map.filter q)
    (hm : MapInv s) : MapInv s2 := by
  obtain ⟨kn, vn, hr⟩ := hm
  refine ⟨?_, ?_, ?_⟩
  · rw [hmap]
    exact kn.sublist (List.Sublist.map _ (List.filter_sublist _))
  · rw [hmap]
    exact vn.sublist (List.Sublist.map _ (List.filter_sublist _))
  · intro p hp
    rw [hmap] at hp
    have hmem := List.mem_of_mem_filter hp
    exact ⟨hlen ▸ (hr p hmem).1, (hname p.2).trans (hr p hmem).2⟩

/-- The specification of one `removeObjectFuel` call on a healthy target:
it succeeds, the flat storage keeps its length (removal never shrinks the
`objects` vector), the registry loses exactly the subtree's entries, the
root list loses exactly the target, the removed nodes' children lists are
emptied in place, the target's parent's children list loses the target,
and everything else is untouched. -/
def RemoveSpec (fuel : ℕ) : Prop :=
  ∀ (s : Scene) (name : String) (id : ℕ),
    MapInv s → ChildMono s →
    mapLookup s.object_map name = some id →
    SubtreeHealthy s id →
    (∀ d ∈ s.subtree id, d ≠ id → d ∉ s.root_objects) →
    (∀ pid0 ∈ ((s.obj id).parent).toList, pid0 < id) →
    s.objects.length - id < fuel →
    ∃ s2, removeObjectFuel fuel s name = Except.ok s2 ∧
      s2.objects.length = s.objects.length ∧
      s2.light_manager = s.light_manager ∧
      s2.object_map = s.object_map.filter (fun p => decide (p.2 ∉ s.subtree id)) ∧
      s2.root_objects = s.root_objects.erase id ∧
      (∀ j, s2.obj j =
        if j ∈ s.subtree id then { s.obj j with children := [] }
        else if (s.obj id).parent = some j then
          { s.obj j with children := (s.obj j).children.erase id }
        else s.obj j)

/-- The children loop of `remove_object` deletes the subtrees of all the
pending children and empties the parent's children list, touching nothing
else. -/
theorem removeChildrenFuel_spec (fuel : ℕ) (hP : RemoveSpec fuel) :
    ∀ (cs : List ℕ) (s : Scene) (pid : ℕ),
      MapInv s → ChildMono s →
      pid < s.objects.length →
      (s.obj pid).children = cs →
      cs.Nodup →
      (∀ c ∈ cs, c ∈ mapValues s.object_map ∧ (s.obj c).parent = some pid ∧
        SubtreeHealthy s c ∧ (∀ d ∈ s.subtree c, d ∉ s.root_objects) ∧
        s.objects.length - c < fuel) →
      ∃ s2, removeChildrenFuel fuel s cs = Except.ok s2 ∧
        s2.objects.length = s.objects.length ∧
        s2.light_manager = s.light_manager ∧
        s2.object_map = s.object_map.filter
          (fun p => decide (p.2 ∉ cs.flatMap (fun c => s.subtree c))) ∧
        s2.root_objects = s.root_objects ∧
        (∀ j, s2.obj j =
          if j = pid ∨ j ∈ cs.flatMap (fun c => s.subtree c) then
            { s.obj j with children := [] }
          else s.obj j) := by
  intro cs
  induction cs with
  | nil =>
      intro s pid _hmi _hcm _hpid hch _hnd _hcs
      refine ⟨s, by rw [removeChildrenFuel], rfl, rfl, ?_, rfl, ?_⟩
      · symm
        apply List.filter_eq_self.mpr
        intro p _
        simp
      · intro j
        by_cases hj : j = pid
        · subst hj
          rw [if_pos (Or.inl rfl), SceneObject.eta_children hch]
        · rw [if_neg (by simp [hj])]
  | cons c rest ih =>
      intro s pid hmi hcm hpid hch hnd hcs
      obtain ⟨hcval, hcpar, hchealthy, hcroots, hcfuel⟩ := hcs c (List.mem_cons_self _ _)
      obtain ⟨name_c, hnamec⟩ := mem_mapValues.mp hcval
      have hrev : reverseLookup s.object_map c = some name_c :=
        mem_reverseLookup hmi.2.1 hnamec
      have hlook : mapLookup s.object_map name_c = some c := mem_mapLookup hmi.1 hnamec
      have hcinch : c ∈ (s.obj pid).children := by rw [hch]; exact List.mem_cons_self _ _
      have hpltc : pid < c := (hcm pid hpid c hcinch).1
      have hclen : c < s.objects.length := (hcm pid hpid c hcinch).2
      obtain ⟨s1, hrun1, hlen1, hlight1, hmap1, hroots1, hobj1⟩ :=
        hP s name_c c hmi hcm hlook hchealthy (fun d hd _ => hcroots d hd)
          (by intro p0 hp0
              rw [hcpar] at hp0
              simp only [Option.toList_some, List.mem_singleton] at hp0
              omega)
          hcfuel
      have hcnotroot : c ∉ s.root_objects := hcroots c (Scene.subtree_self_mem s c)
      rw [List.erase_of_not_mem hcnotroot] at hroots1
      have hdisj : ∀ c2 ∈ rest, ∀ m, m ∈ s.subtree c → m ∈ s.subtree c2 → False := by
        intro c2 hc2 m hm1 hm2
        obtain ⟨hc2val, hc2par, hc2healthy, _, _⟩ := hcs c2 (List.mem_cons_of_mem _ hc2)
        have hc2inch : c2 ∈ (s.obj pid).children := by
          rw [hch]; exact List.mem_cons_of_mem _ hc2
        have hne : c ≠ c2 := by
          intro he
          subst he
          exact (List.nodup_cons.mp hnd).1 hc2
        exact Scene.subtree_sibling_disjoint s hcm hcpar hc2par hpltc
          (hcm pid hpid c2 hc2inch).1 hne
          (fun d hd c3 hc3 => (hchealthy d hd).2.2.2 c3 hc3)
          (fun d hd c3 hc3 => (hc2healthy d hd).2.2.2 c3 hc3) m hm1 hm2
      have hname1 : ∀ j, (s1.obj j).name = (s.obj j).name := by
        intro j
        rw [hobj1 j]
        split
        · rfl
        · split <;> rfl
      have hpar1 : ∀ j, (s1.obj j).parent = (s.obj j).parent := by
        intro j
        rw [hobj1 j]
        split
        · rfl
        · split <;> rfl
      have hchsub1 : ∀ j, ∀ c3 ∈ (s1.obj j).children, c3 ∈ (s.obj j).children := by
        intro j c3 hc3
        rw [hobj1 j] at hc3
        revert hc3
        split
        · intro hc3; exact absurd hc3 (List.not_mem_nil _)
        · split
          · intro hc3; exact List.mem_of_mem_erase hc3
          · intro hc3; exact hc3
      have hclear1 : ∀ j, ({ s1.obj j with children := [] } : SceneObject) =
          { s.obj j with children := [] } := by
        intro j
        rw [hobj1 j]
        split
        · rfl
        · split <;> rfl
      have hmi1 : MapInv s1 := MapInv.of_filter s s1 hlen1 hname1 _ hmap1 hmi
      have hcm1 : ChildMono s1 := ChildMono.of_sub s s1 hlen1 hchsub1 hcm
      have hobj1out : ∀ j, j ∉ s.subtree c → j ≠ pid → s1.obj j = s.obj j := by
        intro j hj hjp
        rw [hobj1 j, if_neg hj, if_neg]
        rw [hcpar]
        intro he
        injection he with he2
        exact hjp he2.symm
      have hpidnotsub : pid ∉ s.subtree c := by
        intro hmem
        have := Scene.subtree_ge s hcm c pid hmem
        omega
      have hchpid : (s1.obj pid).children = rest := by
        rw [hobj1 pid, if_neg hpidnotsub, if_pos (by rw [hcpar]), hch, List.erase_cons_head]
      have hst : ∀ c2 ∈ rest, s1.subtree c2 = s.subtree c2 := by
        intro c2 hc2
        apply Scene.subtree_congr s s1 hlen1
        intro d hd
        have hdge : c2 ≤ d := Scene.subtree_ge s hcm c2 d hd
        have hc2inch : c2 ∈ (s.obj pid).children := by
          rw [hch]; exact List.mem_cons_of_mem _ hc2
        have : pid < c2 := (hcm pid hpid c2 hc2inch).1
        rw [hobj1out d (fun hmem => hdisj c2 hc2 d hmem hd) (by omega)]
      obtain ⟨s2, hrun2, hlen2, hlight2, hmap2, hroots2, hobj2⟩ :=
        ih s1 pid hmi1 hcm1 (by rw [hlen1]; exact hpid) hchpid (List.nodup_cons.mp hnd).2
          (by
            intro c2 hc2
            obtain ⟨hc2val, hc2par, hc2healthy, hc2roots, hc2fuel⟩ :=
              hcs c2 (List.mem_cons_of_mem _ hc2)
            have hc2inch : c2 ∈ (s.obj pid).children := by
              rw [hch]; exact List.mem_cons_of_mem _ hc2
            have hpltc2 : pid < c2 := (hcm pid hpid c2 hc2inch).1
            have hnotin : ∀ d ∈ s.subtree c2, d ∉ s.subtree c :=
              fun d hd hmem => hdisj c2 hc2 d hmem hd
            have hobj1sub : ∀ d ∈ s.subtree c2, s1.obj d = s.obj d := by
              intro d hd
              have hdge : c2 ≤ d := Scene.subtree_ge s hcm c2 d hd
              exact hobj1out d (hnotin d hd) (by omega)
            refine ⟨?_, ?_, ?_, ?_, ?_⟩
            · rw [hmap1]
              rcases mem_mapValues.mp hc2val with ⟨k2, hk2⟩
              apply mem_mapValues.mpr
              refine ⟨k2, List.mem_filter.mpr ⟨hk2, ?_⟩⟩
              simp only [decide_eq_true_eq]
              exact hnotin c2 (Scene.subtree_self_mem s c2)
            · rw [hpar1 c2]
              exact hc2par
            · intro d hd
              rw [hst c2 hc2] at hd
              obtain ⟨h1, h2, h3, h4⟩ := hc2healthy d hd
              refine ⟨by rw [hlen1]; exact h1, ?_, ?_, ?_⟩
              · rw [hmap1]
                rcases mem_mapValues.mp h2 with ⟨kd, hkd⟩
                apply mem_mapValues.mpr
                refine ⟨kd, List.mem_filter.mpr ⟨hkd, ?_⟩⟩
                simp only [decide_eq_true_eq]
                exact hnotin d hd
              · rw [hobj1sub d hd]
                exact h3
              · intro c3 hc3
                rw [hobj1sub d hd] at hc3
                rw [hpar1 c3]
                exact h4 c3 hc3
            · intro d hd
              rw [hst c2 hc2] at hd
              rw [hroots1]
              exact hc2roots d hd
            · rw [hlen1]
              exact hc2fuel)
      have hflat : (rest.flatMap fun c2 => s1.subtree c2) = rest.flatMap fun c2 => s.subtree c2 :=
        List.flatMap_congr hst
      refine ⟨s2, ?_, by rw [hlen2, hlen1], by rw [hlight2, hlight1], ?_, ?_, ?_⟩
      · rw [removeChildrenFuel, hrev]
        simp only [hrun1, hrun2]
      · rw [hmap2, hmap1, hflat, List.filter_filter]
        apply List.filter_congr
        intro p _
        by_cases h1 : p.2 ∈ s.subtree c <;>
          by_cases h2 : p.2 ∈ rest.flatMap (fun c2 => s.subtree c2) <;>
          simp [h1, h2, List.flatMap_cons, List.mem_append]
      · rw [hroots2, hroots1]
      · intro j
        rw [hobj2 j, hflat]
        by_cases hjp : j = pid
        · rw [if_pos (Or.inl hjp), if_pos (Or.inl hjp), hclear1 j]
        · by_cases hjc : j ∈ s.subtree c
          · have hjrest : j ∉ rest.flatMap (fun c2 => s.subtree c2) := by
              intro hmem
              rcases List.mem_flatMap.mp hmem with ⟨c2, hc2, hjc2⟩
              exact hdisj c2 hc2 j hjc hjc2
            rw [if_neg (by simp [hjp, hjrest]), hobj1 j, if_pos hjc,
              if_pos (Or.inr (by
                simp only [List.flatMap_cons, List.mem_append]
                exact Or.inl hjc))]
          · by_cases hjrest : j ∈ rest.flatMap (fun c2 => s.subtree c2)
            · rw [if_pos (Or.inr hjrest), hclear1 j,
                if_pos (Or.inr (by
                  simp only [List.flatMap_cons, List.mem_append]
                  exact Or.inr hjrest))]
            · rw [if_neg (by simp [hjp, hjrest]), hobj1out j hjc hjp,
                if_neg (by
                  simp only [List.flatMap_cons, List.mem_append]
                  intro hcon
                  rcases hcon with h | h
                  · exact hjp h
                  · rcases h with h | h
                    · exact hjc h
                    · exact hjrest h)]

/-! ## Properties of the unlink step -/

theorem removeUnlinked_objects_length (s : Scene) (id : ℕ) :
    (removeUnlinked s id).objects.length = s.objects.length := by
  unfold removeUnlinked
  split <;> simp [listModify_length]

theorem removeUnlinked_light (s : Scene) (id : ℕ) :
    (removeUnlinked s id).light_manager = s.light_manager := by
  unfold removeUnlinked
  split <;> rfl

theorem removeUnlinked_map (s : Scene) (id : ℕ) :
    (removeUnlinked s id).object_map = s.object_map := by
  unfold removeUnlinked
  split <;> rfl

theorem removeUnlinked_roots (s : Scene) (id : ℕ) :
    (removeUnlinked s id).root_objects = s.root_objects.erase id := by
  unfold removeUnlinked
  split <;> rfl

theorem removeUnlinked_obj (s : Scene) (id : ℕ) (j : ℕ) :
    (removeUnlinked s id).obj j =
      if (s.obj id).parent = some j then
        { s.obj j with children := (s.obj j).children.erase id }
      else s.obj j := by
  unfold removeUnlinked
  cases hpar : (s.obj id).parent with
  | none =>
      rw [if_neg (by intro h; exact Option.noConfusion h)]
      rfl
  | some pid0 =>
      by_cases hj : j = pid0
      · subst hj
        rw [if_pos rfl]
        show (listModify s.objects j _).getD j default = _
        by_cases hlt : j < s.objects.length
        · rw [listModify_getD_self _ _ _ _ hlt]
          rfl
        · unfold listModify
          rw [List.get?_eq_getElem?, List.getElem?_eq_none (by omega)]
          show s.obj j = _
          rw [Scene.obj_oob s j (by omega)]
          rw [show (default : SceneObject).children = [] from rfl]
          rw [List.erase_nil]
          exact (SceneObject.eta_children rfl).symm
      · rw [if_neg (by intro h; injection h with h2; exact hj h2.symm)]
        show (listModify s.objects pid0 _).getD j default = _
        exact listModify_getD_ne _ _ _ _ _ hj

theorem MapInv.of_eq (s s2 : Scene) (hlen : s2.objects.length = s.objects.length)
    (hname : ∀ j, (s2.obj j).name = (s.obj j).name)
    (hmap : s2.object_map = s.object_map) (hm : MapInv s) : MapInv s2 := by
  obtain ⟨kn, vn, hr⟩ := hm
  refine ⟨by rw [hmap]; exact kn, by rw [hmap]; exact vn, ?_⟩
  intro p hp
  rw [hmap] at hp
  exact ⟨hlen ▸ (hr p hp).1, (hname p.2).trans (hr p hp).2⟩

/-- Every fuel level satisfies the removal specification (the recursion
consumes one unit of fuel per tree level, and children have strictly larger
indices, so `length - id` bounds the needed depth). -/
theorem removeObjectFuel_ok : ∀ fuel, RemoveSpec fuel := by
  intro fuel
  induction fuel with
  | zero =>
      intro s name id _ _ _ _ _ _ hb
      omega
  | succ n ihn =>
      intro s name id hmi hcm hlook hhealthy hroots hplt hb
      have hidmem : (name, id) ∈ s.object_map := mapLookup_mem hlook
      have hidlen : id < s.objects.length := (hmi.2.2 _ hidmem).1
      set su := removeUnlinked s id with hsu
      have hsulen : su.objects.length = s.objects.length := removeUnlinked_objects_length s id
      have hsulight : su.light_manager = s.light_manager := removeUnlinked_light s id
      have hsumap : su.object_map = s.object_map := removeUnlinked_map s id
      have hsuroots : su.root_objects = s.root_objects.erase id := removeUnlinked_roots s id
      have hsuobj : ∀ j, su.obj j =
          if (s.obj id).parent = some j then
            { s.obj j with children := (s.obj j).children.erase id }
          else s.obj j := removeUnlinked_obj s id
      -- the target's own record is untouched by the unlink
      have hparne : (s.obj id).parent ≠ some id := by
        intro h
        have := hplt id (by rw [h]; exact List.mem_cons_self _ _)
        omega
      have hsuid : su.obj id = s.obj id := by rw [hsuobj id, if_neg hparne]
      -- records of subtree members are untouched by the unlink
      have hsuobj_sub : ∀ d ∈ s.subtree id, su.obj d = s.obj d := by
        intro d hd
        have hdge : id ≤ d := Scene.subtree_ge s hcm id d hd
        rw [hsuobj d, if_neg]
        intro h
        have := hplt d (by rw [h]; exact List.mem_cons_self _ _)
        omega
      have hsust : su.subtree id = s.subtree id := by
        apply Scene.subtree_congr s su hsulen
        intro d hd
        rw [hsuobj_sub d hd]
      have hname_su : ∀ j, (su.obj j).name = (s.obj j).name := by
        intro j
        rw [hsuobj j]
        split <;> rfl
      have hmisu : MapInv su := MapInv.of_eq s su hsulen hname_su hsumap hmi
      have hcmsu : ChildMono su := by
        refine ChildMono.of_sub s su hsulen ?_ hcm
        intro j c hc
        rw [hsuobj j] at hc
        revert hc
        split
        · exact fun hc => List.mem_of_mem_erase hc
        · exact fun hc => hc
      -- the pending children list
      have hchid : (su.obj id).children = (s.obj id).children := by rw [hsuid]
      have hchnodup : (s.obj id).children.Nodup :=
        (hhealthy id (Scene.subtree_self_mem s id)).2.2.1
      have hchpar : ∀ c ∈ (s.obj id).children, (s.obj c).parent = some id :=
        (hhealthy id (Scene.subtree_self_mem s id)).2.2.2
      -- apply the children-loop specification
      obtain ⟨s3, hrun3, hlen3, hlight3, hmap3, hroots3, hobj3⟩ :=
        removeChildrenFuel_spec n ihn ((su.obj id).children) su id hmisu hcmsu
          (by rw [hsulen]; exact hidlen) rfl (by rw [hchid]; exact hchnodup)
          (by
            intro c hc
            rw [hchid] at hc
            have hcsub : c ∈ s.subtree id :=
              Scene.subtree_mem_of_child s hcm hc (Scene.subtree_self_mem s c)
            have hcge : id < c := (hcm id hidlen c hc).1
            have hsubc : ∀ d ∈ s.subtree c, d ∈ s.subtree id :=
              fun d hd => Scene.subtree_mem_of_child s hcm hc hd
            have hsust_c : su.subtree c = s.subtree c := by
              apply Scene.subtree_congr s su hsulen
              intro d hd
              rw [hsuobj_sub d (hsubc d hd)]
            refine ⟨?_, ?_, ?_, ?_, ?_⟩
            · rw [hsumap]
              exact (hhealthy c hcsub).2.1
            · rw [hsuobj_sub c hcsub]
              exact hchpar c hc
            · intro d hd
              rw [hsust_c] at hd
              obtain ⟨h1, h2, h3, h4⟩ := hhealthy d (hsubc d hd)
              refine ⟨by rw [hsulen]; exact h1, by rw [hsumap]; exact h2, ?_, ?_⟩
              · rw [hsuobj_sub d (hsubc d hd)]
                exact h3
              · intro c3 hc3
                rw [hsuobj_sub d (hsubc d hd)] at hc3
                have hc3sub : c3 ∈ s.subtree id :=
                  Scene.subtree_closed s hcm (s.objects.length - id + 1) id (by omega)
                    d (hsubc d hd) c3 hc3
                rw [hsuobj_sub c3 hc3sub]
                exact h4 c3 hc3
            · intro d hd
              rw [hsust_c] at hd
              rw [hsuroots]
              intro hmem
              have hdge : c ≤ d := Scene.subtree_ge s hcm c d hd
              exact hroots d (hsubc d hd) (by omega) (List.mem_of_mem_erase hmem)
            · rw [hsulen]
              omega)
      -- assemble the final state
      refine ⟨{ s3 with object_map := mapRemove name s3.object_map }, ?_, ?_, ?_, ?_, ?_, ?_⟩
      · rw [removeObjectFuel]
        rw [hlook]
        simp only [← hsu, hrun3]
      · show s3.objects.length = s.objects.length
        rw [hlen3, hsulen]
      · show s3.light_manager = s.light_manager
        rw [hlight3, hsulight]
      · show mapRemove name s3.object_map = _
        rw [hmap3, hsumap]
        unfold mapRemove
        rw [List.filter_filter]
        apply List.filter_congr
        intro p hp
        have hBsub : (su.obj id).children.flatMap (fun c => su.subtree c) =
            (s.obj id).children.flatMap (fun c => s.subtree c) := by
          rw [hchid]
          apply List.flatMap_congr
          intro c hc
          apply Scene.subtree_congr s su hsulen
          intro d hd
          rw [hsuobj_sub d (Scene.subtree_mem_of_child s hcm hc hd)]
        rw [hBsub]
        have hiff1 : p.1 = name ↔ p.2 = id := by
          constructor
          · intro h
            refine keys_nodup_inj hmi.1 (show (name, p.2) ∈ s.object_map from ?_) hidmem
            rw [← h]
            exact hp
          · intro h
            refine values_nodup_inj hmi.2.1 (show (p.1, id) ∈ s.object_map from ?_) hidmem
            rw [← h]
            exact hp
        rw [Scene.subtree_unfold s hcm id]
        by_cases h2 : p.2 = id
        · have h1 : p.1 = name := hiff1.mpr h2
          simp [h1, h2]
        · have h1 : p.1 ≠ name := fun h => h2 (hiff1.mp h)
          by_cases hB : p.2 ∈ (s.obj id).children.flatMap (fun c => s.subtree c) <;>
            simp [h1, h2, hB]
      · show s3.root_objects = _
        rw [hroots3, hsuroots]
      · intro j
        show s3.obj j = _
        rw [hobj3 j]
        have hBsub : (su.obj id).children.flatMap (fun c => su.subtree c) =
            (s.obj id).children.flatMap (fun c => s.subtree c) := by
          rw [hchid]
          apply List.flatMap_congr
          intro c hc
          apply Scene.subtree_congr s su hsulen
          intro d hd
          rw [hsuobj_sub d (Scene.subtree_mem_of_child s hcm hc hd)]
        rw [hBsub]
        have hmemiff : j ∈ s.subtree id ↔
            j = id ∨ j ∈ (s.obj id).children.flatMap (fun c => s.subtree c) := by
          rw [Scene.subtree_unfold s hcm id]
          exact List.mem_cons
        by_cases hj : j = id ∨ j ∈ (s.obj id).children.flatMap (fun c => s.subtree c)
        · rw [if_pos hj, if_pos (hmemiff.mpr hj)]
          have hjsub : j ∈ s.subtree id := hmemiff.mpr hj
          rw [show ({ su.obj j with children := [] } : SceneObject) =
              { s.obj j with children := [] } from by rw [hsuobj_sub j hjsub]]
        · rw [if_neg hj, if_neg (fun h => hj (hmemiff.mp h)), hsuobj j]

/-! ## From `TreeInv` to the hypotheses of the removal specification -/

/-- Ids registered in the map point into the flat storage. -/
theorem TreeInv.registered_lt {s : Scene} (ht : TreeInv s) {id : ℕ}
    (hid : id ∈ mapValues s.object_map) : id < s.objects.length := by
  rcases mem_mapValues.mp hid with ⟨k, hk⟩
  exact (ht.1.2.2 _ hk).1

/-- On a well-formed scene every member of a registered id's subtree is
itself registered. -/
theorem TreeInv.subtree_registered {s : Scene} (ht : TreeInv s) :
    ∀ (n id : ℕ), s.objects.length - id < n → id ∈ mapValues s.object_map →
      ∀ d ∈ s.subtree id, d ∈ mapValues s.object_map := by
  intro n
  induction n with
  | zero => omega
  | succ n ih =>
      intro id hn hid d hd
      rcases Scene.subtree_cases s ht.2.1 hd with rfl | ⟨c, hc, hdc⟩
      · exact hid
      · have hidlen : id < s.objects.length := ht.registered_lt hid
        have h1 := ht.2.1 id hidlen c hc
        have h2 := (ht.2.2.2.2.2.1 id hid).2 c hc
        exact ih c (by omega) h2.1 d hdc

/-- A registered id's subtree satisfies the local health conditions that the
removal recursion relies on. -/
theorem TreeInv.subtree_healthy {s : Scene} (ht : TreeInv s) {id : ℕ}
    (hid : id ∈ mapValues s.object_map) : SubtreeHealthy s id := by
  intro d hd
  have hdreg : d ∈ mapValues s.object_map :=
    ht.subtree_registered (s.objects.length - id + 1) id (by omega) hid d hd
  refine ⟨ht.registered_lt hdreg, hdreg, (ht.2.2.2.2.2.1 d hdreg).1, ?_⟩
  intro c hc
  exact ((ht.2.2.2.2.2.1 d hdreg).2 c hc).2

/-- On a well-formed scene no strict descendant of a registered id sits in
the root list (it has a parent, and roots are parentless). -/
theorem TreeInv.subtree_not_root {s : Scene} (ht : TreeInv s) {id : ℕ}
    (hid : id ∈ mapValues s.object_map) :
    ∀ d ∈ s.subtree id, d ≠ id → d ∉ s.root_objects := by
  intro d hd hne hdr
  have hh := ht.subtree_healthy hid
  obtain ⟨pm, hpm, _, _⟩ :=
    Scene.subtree_parent s ht.2.1 (s.objects.length - id + 1) id (by omega)
      (fun d2 hd2 c hc => (hh d2 hd2).2.2.2 c hc) d hd hne
  have hnone := (ht.2.2.2.1 d hdr).2
  rw [hnone] at hpm
  exact Option.noConfusion hpm

/-- Removing a registered subtree from a well-formed scene leaves a
well-formed scene: the state description produced by `removeObjectFuel_ok`
restores every component of `TreeInv`. -/
theorem TreeInv.remove_preserved {s s2 : Scene} {id : ℕ} (ht : TreeInv s)
    (hid : id ∈ mapValues s.object_map)
    (hlen : s2.objects.length = s.objects.length)
    (hmap : s2.object_map = s.object_map.filter (fun p => decide (p.2 ∉ s.subtree id)))
    (hroots : s2.root_objects = s.root_objects.erase id)
    (hobj : ∀ j, s2.obj j =
      if j ∈ s.subtree id then { s.obj j with children := [] }
      else if (s.obj id).parent = some j then
        { s.obj j with children := (s.obj j).children.erase id }
      else s.obj j) :
    TreeInv s2 := by
  have hmi := ht.1
  have hcm := ht.2.1
  have hrn := ht.2.2.1
  have hrt := ht.2.2.2.1
  have hpl := ht.2.2.2.2.1
  have hch := ht.2.2.2.2.2.1
  have hpar := ht.2.2.2.2.2.2
  have hidlen : id < s.objects.length := ht.registered_lt hid
  have hh := ht.subtree_healthy hid
  have hpp : ∀ d ∈ s.subtree id, ∀ c ∈ (s.obj d).children, (s.obj c).parent = some d :=
    fun d hd c hc => (hh d hd).2.2.2 c hc
  have hclosed : ∀ d ∈ s.subtree id, ∀ c ∈ (s.obj d).children, c ∈ s.subtree id :=
    Scene.subtree_closed s hcm (s.objects.length - id + 1) id (by omega)
  have hname : ∀ j, (s2.obj j).name = (s.obj j).name := by
    intro j
    rw [hobj j]
    split
    · rfl
    · split <;> rfl
  have hpar2 : ∀ j, (s2.obj j).parent = (s.obj j).parent := by
    intro j
    rw [hobj j]
    split
    · rfl
    · split <;> rfl
  have hcsub : ∀ j, ∀ c ∈ (s2.obj j).children, c ∈ (s.obj j).children := by
    intro j c hc
    rw [hobj j] at hc
    split at hc
    · exact absurd hc (List.not_mem_nil _)
    · split at hc
      · exact List.mem_of_mem_erase hc
      · exact hc
  have hmem2 : ∀ p : String × ℕ, p ∈ s2.object_map ↔
      p ∈ s.object_map ∧ p.2 ∉ s.subtree id := by
    intro p
    rw [hmap, List.mem_filter]
    simp only [decide_eq_true_eq]
  have hval2 : ∀ j, j ∈ mapValues s2.object_map ↔
      j ∈ mapValues s.object_map ∧ j ∉ s.subtree id := by
    intro j
    constructor
    · intro h
      rcases mem_mapValues.mp h with ⟨k, hk⟩
      have h2 := (hmem2 (k, j)).mp hk
      exact ⟨mem_mapValues.mpr ⟨k, h2.1⟩, h2.2⟩
    · intro h
      rcases mem_mapValues.mp h.1 with ⟨k, hk⟩
      exact mem_mapValues.mpr ⟨k, (hmem2 (k, j)).mpr ⟨hk, h.2⟩⟩
  have hstep : ∀ j, j ∈ mapValues s.object_map → j ∉ s.subtree id →
      ∀ c ∈ (s.obj j).children, c ≠ id → c ∉ s.subtree id := by
    intro j hjreg hjns c hc hcne hcs
    obtain ⟨pm, hpm, hpmsub, _⟩ :=
      Scene.subtree_parent s hcm (s.objects.length - id + 1) id (by omega) hpp c hcs hcne
    have hcp := ((hch j hjreg).2 c hc).2
    rw [hcp] at hpm
    injection hpm with he
    exact hjns (by rw [he]; exact hpmsub)
  refine ⟨?_, ?_, ?_, ?_, ?_, ?_, ?_⟩
  · exact MapInv.of_filter s s2 hlen hname _ hmap hmi
  · exact ChildMono.of_sub s s2 hlen hcsub hcm
  · rw [hroots]
    exact hrn.sublist (List.erase_sublist _ _)
  · intro r hr
    rw [hroots] at hr
    have hr' := List.mem_of_mem_erase hr
    have hrne : r ≠ id := (hrn.mem_erase_iff.mp hr).1
    have h0 := hrt r hr'
    have hrns : r ∉ s.subtree id := by
      intro hrs
      exact ht.subtree_not_root hid r hrs hrne hr'
    exact ⟨(hval2 r).mpr ⟨h0.1, hrns⟩, (hpar2 r).trans h0.2⟩
  · intro j hj hpj
    obtain ⟨hjreg, hjns⟩ := (hval2 j).mp hj
    rw [hpar2 j] at hpj
    have hjr := hpl j hjreg hpj
    have hjne : j ≠ id := by
      intro he
      exact hjns (he ▸ Scene.subtree_self_mem s id)
    rw [hroots]
    exact (List.mem_erase_of_ne hjne).mpr hjr
  · intro j hj
    obtain ⟨hjreg, hjns⟩ := (hval2 j).mp hj
    have hcj := hch j hjreg
    by_cases hpid : (s.obj id).parent = some j
    · have hcc2 : (s2.obj j).children = (s.obj j).children.erase id := by
        rw [hobj j, if_neg hjns, if_pos hpid]
      rw [hcc2]
      refine ⟨hcj.1.sublist (List.erase_sublist _ _), ?_⟩
      intro c hc
      have hc' := List.mem_of_mem_erase hc
      have hcne : c ≠ id := (hcj.1.mem_erase_iff.mp hc).1
      have hcns : c ∉ s.subtree id := hstep j hjreg hjns c hc' hcne
      exact ⟨(hval2 c).mpr ⟨(hcj.2 c hc').1, hcns⟩, (hpar2 c).trans (hcj.2 c hc').2⟩
    · have hcc2 : (s2.obj j).children = (s.obj j).children := by
        rw [hobj j, if_neg hjns, if_neg hpid]
      rw [hcc2]
      refine ⟨hcj.1, ?_⟩
      intro c hc
      have hcd := hcj.2 c hc
      have hcne : c ≠ id := by
        intro he
        subst he
        exact hpid hcd.2
      have hcns : c ∉ s.subtree id := hstep j hjreg hjns c hc hcne
      exact ⟨(hval2 c).mpr ⟨hcd.1, hcns⟩, (hpar2 c).trans hcd.2⟩
  · intro j hj pid hp
    obtain ⟨hjreg, hjns⟩ := (hval2 j).mp hj
    rw [hpar2 j] at hp
    have hpd := hpar j hjreg pid hp
    have hpns : pid ∉ s.subtree id := by
      intro hps
      exact hjns (hclosed pid hps j hpd.2.1)
    have hjne : j ≠ id := by
      intro he
      exact hjns (he ▸ Scene.subtree_self_mem s id)
    refine ⟨(hval2 pid).mpr ⟨hpd.1, hpns⟩, ?_, hpd.2.2⟩
    rw [hobj pid, if_neg hpns]
    by_cases hpid2 : (s.obj id).parent = some pid
    · rw [if_pos hpid2]
      show j ∈ (s.obj pid).children.erase id
      exact (List.mem_erase_of_ne hjne).mpr hpd.2.1
    · rw [if_neg hpid2]
      exact hpd.2.1

/-- Filtering a well-formed registry down to the complement of a registered
subtree drops exactly the subtree's size: the dropped entries' values and
the subtree members are in duplicate-free bijection. -/
theorem remove_count {s : Scene} {id : ℕ} (ht : TreeInv s)
    (hid : id ∈ mapValues s.object_map) :
    (s.object_map.filter (fun p => decide (p.2 ∉ s.subtree id))).length
      + (s.subtree id).length = s.object_map.length := by
  have hcm := ht.2.1
  have hh := ht.subtree_healthy hid
  have hnd : (s.subtree id).Nodup := by
    apply Scene.subtree_nodup s hcm (s.objects.length - id + 1) id
      (by have := ht.registered_lt hid; omega)
    intro d hd
    exact ⟨(hh d hd).2.2.1, (hh d hd).2.2.2⟩
  have hsplit := List.length_eq_length_filter_add (l := s.object_map)
    (fun p => decide (p.2 ∉ s.subtree id))
  have hcompl : s.object_map.filter (fun p => !(decide (p.2 ∉ s.subtree id)))
      = s.object_map.filter (fun p => decide (p.2 ∈ s.subtree id)) := by
    apply List.filter_congr
    intro p _
    simp
  have hperm : ((s.object_map.filter (fun p => decide (p.2 ∈ s.subtree id))).map
      (fun p => p.2)).Perm (s.subtree id) := by
    refine (List.perm_ext_iff_of_nodup ?_ hnd).2 ?_
    · exact ht.1.2.1.sublist (List.Sublist.map _ (List.filter_sublist _))
    · intro v
      constructor
      · intro hv
        rcases List.mem_map.mp hv with ⟨p, hp, he⟩
        have hpf := List.mem_filter.mp hp
        exact he ▸ of_decide_eq_true hpf.2
      · intro hv
        have hreg : v ∈ mapValues s.object_map := (hh v hv).2.1
        rcases mem_mapValues.mp hreg with ⟨k, hk⟩
        exact List.mem_map.mpr ⟨(k, v), List.mem_filter.mpr ⟨hk, decide_eq_true hv⟩, rfl⟩
  have hlen2 : (s.object_map.filter (fun p => decide (p.2 ∈ s.subtree id))).length
      = (s.subtree id).length := by
    rw [← hperm.length_eq, List.length_map]
  rw [hcompl, hlen2] at hsplit
  omega

/-- A scene whose root list is empty traverses no objects. -/
theorem Scene.traverse_nil (s : Scene) (h : s.root_objects = []) :
    s.traverse = [] := by
  unfold Scene.traverse
  rw [h]
  rfl

/-! ## Claim C1: removal of a registered subtree -/

/-- Claim C1: on every well-formed scene (`TreeInv`), removing a registered
name with `K` descendants succeeds and removes exactly `K + 1` entries from
the name-to-index map (precisely the target's subtree), removes the target
from the root list, keeps every surviving object's name and parent while
only unlinking the target from its parent's children list, and leaves the
scene well-formed again (so map, root list and children lists remain
mutually consistent in size and membership); in particular building the
two-object scene `A` (root, one descendant `B`) and removing `A` leaves an
empty map, an empty root list, an empty traversal and no retrievable
objects.  (The flat `objects` vector keeps its length: the Rust code never
shrinks it, it only drops every name that could reach the removed nodes.) -/
theorem claim_C1_remove_object_consistent :
    (∀ (s : Scene) (name : String) (id : ℕ),
      TreeInv s → mapLookup s.object_map name = some id →
      ∃ s2, Scene.remove_object name s = Except.ok s2 ∧
        s2.object_map.length + (s.descendantCount id + 1) = s.object_map.length ∧
        (∀ p : String × ℕ, p ∈ s2.object_map ↔ p ∈ s.object_map ∧ p.2 ∉ s.subtree id) ∧
        s2.root_objects = s.root_objects.erase id ∧
        TreeInv s2 ∧
        s2.objects.length = s.objects.length ∧
        (∀ j, j ∉ s.subtree id → (s2.obj j).name = (s.obj j).name ∧
          (s2.obj j).parent = (s.obj j).parent ∧
          (s2.obj j).children =
            (if (s.obj id).parent = some j then (s.obj j).children.erase id
             else (s.obj j).children))) ∧
    ((Scene.add_object "A" (translationTransform ⟨1, 0, 0⟩) none zeroMaterial none
        Scene.new).bind
      (fun r1 => Scene.add_object "B" (translationTransform ⟨0, 1, 0⟩) none zeroMaterial
        (some "A") r1.2) = Except.ok (1, sceneAB) ∧
      ∃ sR, Scene.remove_object "A" sceneAB = Except.ok sR ∧
        sR.object_map = [] ∧ sR.root_objects = [] ∧ sR.traverse = [] ∧
        (∀ nm, sR.get_object nm = none)) := by
  have hgen : ∀ (s : Scene) (name : String) (id : ℕ),
      TreeInv s → mapLookup s.object_map name = some id →
      ∃ s2, Scene.remove_object name s = Except.ok s2 ∧
        s2.object_map.length + (s.descendantCount id + 1) = s.object_map.length ∧
        (∀ p : String × ℕ, p ∈ s2.object_map ↔ p ∈ s.object_map ∧ p.2 ∉ s.subtree id) ∧
        s2.root_objects = s.root_objects.erase id ∧
        TreeInv s2 ∧
        s2.objects.length = s.objects.length ∧
        (∀ j, j ∉ s.subtree id → (s2.obj j).name = (s.obj j).name ∧
          (s2.obj j).parent = (s.obj j).parent ∧
          (s2.obj j).children =
            (if (s.obj id).parent = some j then (s.obj j).children.erase id
             else (s.obj j).children)) := by
    intro s name id ht hlook
    have hid : id ∈ mapValues s.object_map := mem_mapValues.mpr ⟨name, mapLookup_mem hlook⟩
    have hidlen : id < s.objects.length := ht.registered_lt hid
    obtain ⟨s2, hrun, hlen, hlight, hmap, hroots, hobj⟩ :=
      removeObjectFuel_ok (s.objects.length + 1) s name id ht.1 ht.2.1 hlook
        (ht.subtree_healthy hid) (ht.subtree_not_root hid)
        (fun pid0 hp => (ht.2.2.2.2.2.2 id hid pid0 hp).2.2) (by omega)
    refine ⟨s2, hrun, ?_, ?_, hroots, ?_, hlen, ?_⟩
    · have hc := remove_count ht hid
      have h1 : 1 ≤ (s.subtree id).length :=
        List.length_pos.2 (List.ne_nil_of_mem (Scene.subtree_self_mem s id))
      have hdesc : s.descendantCount id + 1 = (s.subtree id).length := by
        unfold Scene.descendantCount
        omega
      rw [hmap, hdesc]
      exact hc
    · intro p
      rw [hmap, List.mem_filter]
      simp only [decide_eq_true_eq]
    · exact ht.remove_preserved hid hlen hmap hroots hobj
    · intro j hj
      refine ⟨?_, ?_, ?_⟩ <;> rw [hobj j, if_neg hj]
      · split <;> rfl
      · split <;> rfl
      · split <;> rfl
  refine ⟨hgen, rfl, ?_⟩
  obtain ⟨sR, hrun, hcnt, hmem, hroots, htv, hlenO, hrest⟩ :=
    hgen sceneAB "A" 0 (by decide) (by decide)
  have hd : sceneAB.descendantCount 0 = 1 := by decide
  have hml : sceneAB.object_map.length = 2 := rfl
  have hz : sR.object_map.length = 0 := by
    rw [hd, hml] at hcnt
    omega
  have hmape : sR.object_map = [] := List.length_eq_zero.1 hz
  have hrootse : sR.root_objects = [] := by
    rw [hroots]
    rfl
  refine ⟨sR, hrun, hmape, hrootse, Scene.traverse_nil sR hrootse, ?_⟩
  intro nm
  show (mapLookup sR.object_map nm).map _ = none
  rw [hmape]
  rfl

/-- Concrete instantiation of `claim_C1_remove_object_consistent` on
`sceneAB` with name `A` (id 0, one descendant): the hypotheses `TreeInv
sceneAB` and the registry lookup hold by computation, and the general
removal theorem applies. -/
theorem claim_C1_remove_object_consistent_witness :
    TreeInv sceneAB ∧ mapLookup sceneAB.object_map "A" = some 0 ∧
    ∃ s2, Scene.remove_object "A" sceneAB = Except.ok s2 ∧
      s2.object_map.length + (sceneAB.descendantCount 0 + 1) =
        sceneAB.object_map.length ∧
      (∀ p : String × ℕ, p ∈ s2.object_map ↔
        p ∈ sceneAB.object_map ∧ p.2 ∉ sceneAB.subtree 0) ∧
      s2.root_objects = sceneAB.root_objects.erase 0 ∧
      TreeInv s2 ∧
      s2.objects.length = sceneAB.objects.length ∧
      (∀ j, j ∉ sceneAB.subtree 0 → (s2.obj j).name = (sceneAB.obj j).name ∧
        (s2.obj j).parent = (sceneAB.obj j).parent ∧
        (s2.obj j).children =
          (if (sceneAB.obj 0).parent = some j then (sceneAB.obj j).children.erase 0
           else (sceneAB.obj j).children)) :=
  ⟨by decide, by decide,
    claim_C1_remove_object_consistent.1 sceneAB "A" 0 (by decide) (by decide)⟩
